import Mathlib

/-!
# Polyline geometry codec and polyline simplification

A shallow embedding of `indexer/geometry_coding.cpp` (predictive delta codec for
lattice points) and `geometry/simplification.hpp` (Douglas-Peucker, near-optimal
dynamic programming simplification, degenerate-triangle filter), followed by the
properties established about them.

Conventions of the embedding.
* `uint32_t` values are `Nat`; arithmetic that can wrap is reduced `% 2 ^ 32`.
* A `vector` is a `List`; `v[i]` is `List.getD v i default`; `push_back` appends.
* A function that writes to a caller-owned sink takes the sink and returns it.
* A failed `ASSERT` / `CHECK` is `Except.error`; assertions are modelled as active.
* `for (i = lo; i < hi; ++i) body` is `forLoop body lo (hi - lo)`.
* `double` distances are values of a linearly ordered type (no NaN).
-/

namespace GeoCoding

/-! ## Data model -/

/-- Lattice point `m2::PointU`: two `uint32_t` coordinates. -/
structure PointU where
  x : Nat
  y : Nat
deriving DecidableEq, Repr

instance : Inhabited PointU := ⟨⟨0, 0⟩⟩

/-- A point whose coordinates fit in 32 bits. -/
def PointU.inLattice (p : PointU) : Prop := p.x < 2 ^ 32 ∧ p.y < 2 ^ 32

instance (p : PointU) : Decidable p.inLattice := by
  unfold PointU.inLattice; exact inferInstance

/-- Signed two-dimensional delta. -/
structure Delta where
  dx : Int
  dy : Int
deriving DecidableEq, Repr

instance : Inhabited Delta := ⟨⟨0, 0⟩⟩

/-- Contract violations (failed assertions and checks). -/
inductive Violation where
  | baseExceedsMax
  | degenerateTriple
  | stripLength
  | roundTripMismatch
deriving DecidableEq, Repr

/-- Modelled from the spec: `EncodeDelta` (declared in `geometry_coding.hpp`) is
`a - b`, signed, per component. -/
def EncodeDelta (actual prediction : PointU) : Delta :=
  ⟨(actual.x : Int) - prediction.x, (actual.y : Int) - prediction.y⟩

/-- Modelled from the spec: `DecodeDelta` (declared in `geometry_coding.hpp`) is
`b + delta` per component, stored in a `uint32_t`. -/
def DecodeDelta (delta : Delta) (prediction : PointU) : PointU :=
  ⟨(((prediction.x : Int) + delta.dx) % 2 ^ 32).toNat,
   (((prediction.y : Int) + delta.dy) % 2 ^ 32).toNat⟩

/-- Counted loop `for (i = lo; i < lo + steps; ++i) s = body i s`, stopping at the
first failure. -/
def forLoop {σ ε : Type} (body : Nat → σ → Except ε σ) : Nat → Nat → σ → Except ε σ
  | _, 0, s => .ok s
  | i, k + 1, s =>
    match body i s with
    | .ok s1 => forLoop body (i + 1) k s1
    | .error e => .error e

/-- The method `vector::back()`. -/
def back {α : Type} [Inhabited α] (v : List α) : α := v.getD (v.length - 1) default

/-! ## Predictors -/

/-- Modelled from the spec: `my::clamp` (declared in `base/math.hpp`) clamps to
`[xmin, xmax]`. -/
def clamp (x xmin xmax : Nat) : Nat :=
  if x > xmax then xmax else if x < xmin then xmin else x

/-- `ClampPoint`, applied to the point already converted with
`static_cast<uint32_t>`. -/
def ClampPoint (maxPoint point : PointU) : PointU :=
  ⟨clamp point.x 0 maxPoint.x, clamp point.y 0 maxPoint.y⟩

/-- The double-precision evaluations inside the polyline predictors, up to and
including the conversion `static_cast<uint32_t>` of both components.
`linear p1 p2` stands for `PointD(p1) + (PointD(p1) - PointD(p2)) / 2` and
`circular p1 p2 p3` for `c1 + (c1 - c2) * polar(0.5, 0.5 * arg((c1 - c2) / (c2 - c3)))`. -/
structure FloatOracle where
  linear : PointU → PointU → PointU
  circular : PointU → PointU → PointU → PointU

/-- `PredictPointInPolyline(maxPoint, p1, p2)`. -/
def PredictPointInPolyline (fo : FloatOracle) (maxPoint p1 p2 : PointU) : PointU :=
  ClampPoint maxPoint (fo.linear p1 p2)

/-- `PredictPointInPolyline(maxPoint, p1, p2, p3)` with its `CHECK_NOT_EQUAL(p2, p3)`. -/
def PredictPointInPolyline3 (fo : FloatOracle) (maxPoint p1 p2 p3 : PointU) :
    Except Violation PointU :=
  if p2 = p3 then .error .degenerateTriple
  else .ok (ClampPoint maxPoint (fo.circular p1 p2 p3))

/-- `PredictPointInTriangle`: `p2 + p3 - p1` in `uint32_t` arithmetic, clamped. -/
def PredictPointInTriangle (maxPoint p1 p2 p3 : PointU) : PointU :=
  ClampPoint maxPoint
    ⟨((p2.x + p3.x) % 2 ^ 32 + 2 ^ 32 - p1.x % 2 ^ 32) % 2 ^ 32,
     ((p2.y + p3.y) % 2 ^ 32 + 2 ^ 32 - p1.y % 2 ^ 32) % 2 ^ 32⟩

/-! ## Delta codec -/

/-- Decoder signature `void (*fnDecode)(deltas, basePoint, maxPoint, points)`. -/
abbrev DecodeFn := List Delta → PointU → PointU → List PointU → Except Violation (List PointU)

/-- `TestDecoding`: decode into a fresh vector and `ASSERT_EQUAL` with the input. -/
def TestDecoding (points : List PointU) (basePoint maxPoint : PointU) (deltas : List Delta)
    (fnDecode : DecodeFn) : Except Violation Bool :=
  match fnDecode deltas basePoint maxPoint [] with
  | .ok decoded => if points = decoded then .ok true else .error .roundTripMismatch
  | .error e => .error e

/-- `DecodePolylinePrev1`. -/
def DecodePolylinePrev1 (deltas : List Delta) (basePoint _maxPoint : PointU)
    (points : List PointU) : Except Violation (List PointU) :=
  let count := deltas.length
  if count > 0 then
    let points := points ++ [DecodeDelta (deltas.getD 0 default) basePoint]
    forLoop (fun i points => .ok (points ++ [DecodeDelta (deltas.getD i default) (back points)]))
      1 (count - 1) points
  else .ok points

/-- The pushes of `EncodePolylinePrev1`, before its final assertion. -/
def EncodePolylinePrev1.push (points : List PointU) (basePoint : PointU)
    (deltas : List Delta) : Except Violation (List Delta) :=
  let count := points.length
  if count > 0 then
    let deltas := deltas ++ [EncodeDelta (points.getD 0 default) basePoint]
    forLoop (fun i deltas =>
        .ok (deltas ++ [EncodeDelta (points.getD i default) (points.getD (i - 1) default)]))
      1 (count - 1) deltas
  else .ok deltas

/-- `EncodePolylinePrev1`; the self-check decodes with `m2::PointU()` as `maxPoint`. -/
def EncodePolylinePrev1 (points : List PointU) (basePoint _maxPoint : PointU)
    (deltas : List Delta) : Except Violation (List Delta) :=
  match EncodePolylinePrev1.push points basePoint deltas with
  | .ok deltas =>
    match TestDecoding points basePoint ⟨0, 0⟩ deltas DecodePolylinePrev1 with
    | .ok _ => .ok deltas
    | .error e => .error e
  | .error e => .error e

/-- `DecodePolylinePrev2`. -/
def DecodePolylinePrev2 (fo : FloatOracle) (deltas : List Delta) (basePoint maxPoint : PointU)
    (points : List PointU) : Except Violation (List PointU) :=
  let count := deltas.length
  if count > 0 then
    let points := points ++ [DecodeDelta (deltas.getD 0 default) basePoint]
    if count > 1 then
      let points := points ++ [DecodeDelta (deltas.getD 1 default) (back points)]
      forLoop (fun i points =>
          let n := points.length
          .ok (points ++ [DecodeDelta (deltas.getD i default)
            (PredictPointInPolyline fo maxPoint (points.getD (n - 1) default)
              (points.getD (n - 2) default))]))
        2 (count - 2) points
    else .ok points
  else .ok points

/-- The pushes of `EncodePolylinePrev2`, before its final assertion. -/
def EncodePolylinePrev2.push (fo : FloatOracle) (points : List PointU)
    (basePoint maxPoint : PointU) (deltas : List Delta) : Except Violation (List Delta) :=
  let count := points.length
  if count > 0 then
    let deltas := deltas ++ [EncodeDelta (points.getD 0 default) basePoint]
    if count > 1 then
      let deltas := deltas ++ [EncodeDelta (points.getD 1 default) (points.getD 0 default)]
      forLoop (fun i deltas =>
          .ok (deltas ++ [EncodeDelta (points.getD i default)
            (PredictPointInPolyline fo maxPoint (points.getD (i - 1) default)
              (points.getD (i - 2) default))]))
        2 (count - 2) deltas
    else .ok deltas
  else .ok deltas

/-- `EncodePolylinePrev2`. -/
def EncodePolylinePrev2 (fo : FloatOracle) (points : List PointU) (basePoint maxPoint : PointU)
    (deltas : List Delta) : Except Violation (List Delta) :=
  match EncodePolylinePrev2.push fo points basePoint maxPoint deltas with
  | .ok deltas =>
    match TestDecoding points basePoint maxPoint deltas (DecodePolylinePrev2 fo) with
    | .ok _ => .ok deltas
    | .error e => .error e
  | .error e => .error e

/-- `DecodePolylinePrev3`. -/
def DecodePolylinePrev3 (fo : FloatOracle) (deltas : List Delta) (basePoint maxPoint : PointU)
    (points : List PointU) : Except Violation (List PointU) :=
  if ¬ (basePoint.x ≤ maxPoint.x) then .error .baseExceedsMax
  else if ¬ (basePoint.y ≤ maxPoint.y) then .error .baseExceedsMax
  else
    let count := deltas.length
    if count > 0 then
      let points := points ++ [DecodeDelta (deltas.getD 0 default) basePoint]
      if count > 1 then
        let pt0 := back points
        let points := points ++ [DecodeDelta (deltas.getD 1 default) pt0]
        if count > 2 then
          let points := points ++ [DecodeDelta (deltas.getD 2 default)
            (PredictPointInPolyline fo maxPoint (back points) pt0)]
          forLoop (fun i points =>
              let n := points.length
              match PredictPointInPolyline3 fo maxPoint (points.getD (n - 1) default)
                  (points.getD (n - 2) default) (points.getD (n - 3) default) with
              | .ok prediction => .ok (points ++ [DecodeDelta (deltas.getD i default) prediction])
              | .error e => .error e)
            3 (count - 3) points
        else .ok points
      else .ok points
    else .ok points

/-- The pushes of `EncodePolylinePrev3`, between its assertions. -/
def EncodePolylinePrev3.push (fo : FloatOracle) (points : List PointU)
    (basePoint maxPoint : PointU) (deltas : List Delta) : Except Violation (List Delta) :=
  let count := points.length
  if count > 0 then
    let deltas := deltas ++ [EncodeDelta (points.getD 0 default) basePoint]
    if count > 1 then
      let deltas := deltas ++ [EncodeDelta (points.getD 1 default) (points.getD 0 default)]
      if count > 2 then
        let prediction :=
          PredictPointInPolyline fo maxPoint (points.getD 1 default) (points.getD 0 default)
        let deltas := deltas ++ [EncodeDelta (points.getD 2 default) prediction]
        forLoop (fun i deltas =>
            match PredictPointInPolyline3 fo maxPoint (points.getD (i - 1) default)
                (points.getD (i - 2) default) (points.getD (i - 3) default) with
            | .ok prediction => .ok (deltas ++ [EncodeDelta (points.getD i default) prediction])
            | .error e => .error e)
          3 (count - 3) deltas
      else .ok deltas
    else .ok deltas
  else .ok deltas

/-- `EncodePolylinePrev3`. -/
def EncodePolylinePrev3 (fo : FloatOracle) (points : List PointU) (basePoint maxPoint : PointU)
    (deltas : List Delta) : Except Violation (List Delta) :=
  if ¬ (basePoint.x ≤ maxPoint.x) then .error .baseExceedsMax
  else if ¬ (basePoint.y ≤ maxPoint.y) then .error .baseExceedsMax
  else
    match EncodePolylinePrev3.push fo points basePoint maxPoint deltas with
    | .ok deltas =>
      match TestDecoding points basePoint maxPoint deltas (DecodePolylinePrev3 fo) with
      | .ok _ => .ok deltas
      | .error e => .error e
    | .error e => .error e

/-- `EncodeTriangleStrip`. -/
def EncodeTriangleStrip (points : List PointU) (basePoint maxPoint : PointU)
    (deltas : List Delta) : Except Violation (List Delta) :=
  let count := points.length
  if count > 0 then
    if ¬ (count > 2) then .error .stripLength
    else
      let deltas := deltas ++ [EncodeDelta (points.getD 0 default) basePoint]
      let deltas := deltas ++ [EncodeDelta (points.getD 1 default) (points.getD 0 default)]
      let deltas := deltas ++ [EncodeDelta (points.getD 2 default) (points.getD 1 default)]
      forLoop (fun i deltas =>
          let prediction := PredictPointInTriangle maxPoint (points.getD (i - 1) default)
            (points.getD (i - 2) default) (points.getD (i - 3) default)
          .ok (deltas ++ [EncodeDelta (points.getD i default) prediction]))
        3 (count - 3) deltas
  else .ok deltas

/-- `DecodeTriangleStrip`. -/
def DecodeTriangleStrip (deltas : List Delta) (basePoint maxPoint : PointU)
    (points : List PointU) : Except Violation (List PointU) :=
  let count := deltas.length
  if count > 0 then
    if ¬ (count > 2) then .error .stripLength
    else
      let points := points ++ [DecodeDelta (deltas.getD 0 default) basePoint]
      let points := points ++ [DecodeDelta (deltas.getD 1 default) (back points)]
      let points := points ++ [DecodeDelta (deltas.getD 2 default) (back points)]
      forLoop (fun i points =>
          let n := points.length
          let prediction := PredictPointInTriangle maxPoint (points.getD (n - 1) default)
            (points.getD (n - 2) default) (points.getD (n - 3) default)
          .ok (points ++ [DecodeDelta (deltas.getD i default) prediction]))
        3 (count - 3) points
  else .ok points

/-! ## Auxiliary definitions for the codec proofs -/

/-- Deltas of a predictive encoder whose prediction for `points[i]` is `P` of the
points before it. -/
def encTable (P : List PointU → PointU) (points : List PointU) : List Delta :=
  (List.range points.length).map fun i =>
    EncodeDelta (points.getD i default) (P (points.take i))

/-- First `i` points reconstructed by a predictive decoder with prediction `P`. -/
def decodedUpTo (P : List PointU → PointU) (deltas : List Delta) : Nat → List PointU
  | 0 => []
  | i + 1 =>
    decodedUpTo P deltas i ++ [DecodeDelta (deltas.getD i default) (P (decodedUpTo P deltas i))]

/-- Prediction used by the `Prev1` pair for the point that follows `pre`. -/
def predPrev1 (basePoint : PointU) (pre : List PointU) : PointU :=
  if pre.length = 0 then basePoint else back pre

/-- Prediction used by the `Prev2` pair for the point that follows `pre`. -/
def predPrev2 (fo : FloatOracle) (basePoint maxPoint : PointU) (pre : List PointU) : PointU :=
  let n := pre.length
  if n = 0 then basePoint
  else if n = 1 then back pre
  else PredictPointInPolyline fo maxPoint (pre.getD (n - 1) default) (pre.getD (n - 2) default)

/-- Prediction used by the `Prev3` pair for the point that follows `pre`, the
check of the three-point predictor left aside. -/
def predPrev3 (fo : FloatOracle) (basePoint maxPoint : PointU) (pre : List PointU) : PointU :=
  let n := pre.length
  if n = 0 then basePoint
  else if n = 1 then back pre
  else if n = 2 then PredictPointInPolyline fo maxPoint (back pre) (pre.getD 0 default)
  else ClampPoint maxPoint
    (fo.circular (pre.getD (n - 1) default) (pre.getD (n - 2) default) (pre.getD (n - 3) default))

/-- Prediction used by the triangle strip pair for the point that follows `pre`. -/
def predStrip (basePoint maxPoint : PointU) (pre : List PointU) : PointU :=
  let n := pre.length
  if n = 0 then basePoint
  else if n < 3 then back pre
  else PredictPointInTriangle maxPoint (pre.getD (n - 1) default) (pre.getD (n - 2) default)
    (pre.getD (n - 3) default)

/-- The points on which the three-point predictor is never called with `p2 = p3`. -/
def WellFormedPrev3 (points : List PointU) : Prop :=
  ∀ i, i < points.length → 3 ≤ i → points.getD (i - 2) default ≠ points.getD (i - 3) default

instance (points : List PointU) : Decidable (WellFormedPrev3 points) := by
  unfold WellFormedPrev3; exact inferInstance

/-- Every point of the sequence is a lattice point. -/
def AllInLattice (points : List PointU) : Prop := ∀ a, a ∈ points → a.inLattice

instance (points : List PointU) : Decidable (AllInLattice points) := by
  unfold AllInLattice; exact inferInstance

deriving instance DecidableEq for Except

/-- Conversion of an integral value to `uint32_t`, reduced to 32 bits. -/
def truncToU32 (t : Int) : Nat := (t % 2 ^ 32).toNat

/-- An oracle for evaluating the model on concrete inputs. The linear part is the
value `p1 + (p1 - p2) / 2`, which double precision represents exactly, truncated
toward zero. The circular part takes the same half step: this is the value of the
circular formula when `p3`, `p2`, `p1` follow each other on a line in one direction
(`d` is then a positive real and `arg(d) = 0`); elsewhere it is a stand-in. -/
def sampleOracle : FloatOracle where
  linear p1 p2 :=
    ⟨truncToU32 ((3 * (p1.x : Int) - p2.x).tdiv 2), truncToU32 ((3 * (p1.y : Int) - p2.y).tdiv 2)⟩
  circular p1 p2 _ :=
    ⟨truncToU32 ((3 * (p1.x : Int) - p2.x).tdiv 2), truncToU32 ((3 * (p1.y : Int) - p2.y).tdiv 2)⟩

/-- The value `p1 + (p1 - p2) / 2` of one coordinate, truncated toward zero. Double
precision represents the value exactly for 32-bit coordinates. -/
def halfStep (a b : Nat) : Int := (3 * (a : Int) - b).tdiv 2

/-- The linear part of the oracle is the exact value wherever the conversion
`static_cast<uint32_t>` of both components is defined (truncated value in
`[0, 2 ^ 32)`). -/
def FloatOracle.LinearExact (fo : FloatOracle) : Prop :=
  ∀ p1 p2 : PointU, p1.inLattice → p2.inLattice →
    0 ≤ halfStep p1.x p2.x → halfStep p1.x p2.x < 2 ^ 32 →
    0 ≤ halfStep p1.y p2.y → halfStep p1.y p2.y < 2 ^ 32 →
    fo.linear p1 p2 = ⟨(halfStep p1.x p2.x).toNat, (halfStep p1.y p2.y).toNat⟩

namespace DeltaTable

/-- Row `Prev1` of the delta table of the specification. -/
def prev1 (points : List PointU) (basePoint : PointU) (i : Nat) : Delta :=
  if i = 0 then EncodeDelta (points.getD 0 default) basePoint
  else EncodeDelta (points.getD i default) (points.getD (i - 1) default)

/-- Row `Prev2` of the delta table of the specification. -/
def prev2 (fo : FloatOracle) (points : List PointU) (basePoint maxPoint : PointU) (i : Nat) :
    Delta :=
  if i = 0 then EncodeDelta (points.getD 0 default) basePoint
  else if i = 1 then EncodeDelta (points.getD 1 default) (points.getD 0 default)
  else EncodeDelta (points.getD i default)
    (PredictPointInPolyline fo maxPoint (points.getD (i - 1) default)
      (points.getD (i - 2) default))

/-- Row `Prev3` of the delta table of the specification; the entry exists when the
three-point predictor returns. -/
def prev3 (fo : FloatOracle) (points : List PointU) (basePoint maxPoint : PointU) (i : Nat) :
    Except Violation Delta :=
  if i = 0 then .ok (EncodeDelta (points.getD 0 default) basePoint)
  else if i = 1 then .ok (EncodeDelta (points.getD 1 default) (points.getD 0 default))
  else if i = 2 then .ok (EncodeDelta (points.getD 2 default)
    (PredictPointInPolyline fo maxPoint (points.getD 1 default) (points.getD 0 default)))
  else
    match PredictPointInPolyline3 fo maxPoint (points.getD (i - 1) default)
        (points.getD (i - 2) default) (points.getD (i - 3) default) with
    | .ok prediction => .ok (EncodeDelta (points.getD i default) prediction)
    | .error e => .error e

/-- Row `TriStrip` of the delta table of the specification. -/
def strip (points : List PointU) (basePoint maxPoint : PointU) (i : Nat) : Delta :=
  if i = 0 then EncodeDelta (points.getD 0 default) basePoint
  else if i = 1 then EncodeDelta (points.getD 1 default) (points.getD 0 default)
  else if i = 2 then EncodeDelta (points.getD 2 default) (points.getD 1 default)
  else EncodeDelta (points.getD i default)
    (PredictPointInTriangle maxPoint (points.getD (i - 1) default)
      (points.getD (i - 2) default) (points.getD (i - 3) default))

end DeltaTable

/-- Four points moving with constant velocity along the x axis. -/
def samplePolyline : List PointU := [⟨0, 0⟩, ⟨10, 0⟩, ⟨20, 0⟩, ⟨30, 0⟩]

/-- The diagonal line of the first concrete scenario. -/
def diagonalLine : List PointU := [⟨10, 10⟩, ⟨20, 20⟩, ⟨30, 30⟩]

end GeoCoding

namespace Simplification

/-! ## Polyline simplification -/

/-- Counted loop `for (i = lo; i < lo + steps; ++i) s = body i s`. -/
def pureLoop {σ : Type} (body : Nat → σ → σ) : Nat → Nat → σ → σ
  | _, 0, s => s
  | i, k + 1, s => pureLoop body (i + 1) k (body i s)

namespace impl

/-- `impl::MaxDistance` on the closed range `[first, last]` of iterators into the
sequence `p`; `dist a b q` is `DistanceF(a, b)(q)`. -/
def MaxDistance {P D : Type} [LinearOrder D] [Zero D] (dist : P → P → P → D) (p : Nat → P)
    (first last : Nat) : D × Nat :=
  let res : D × Nat := (0, last)
  if (last : Int) - first ≤ 1 then res
  else
    pureLoop (fun i res =>
        let d := dist (p first) (p last) (p i)
        if d > res.1 then (d, i) else res)
      (first + 1) (last - (first + 1)) res

/-- `impl::SimplifyDP` on the closed range `[first, last]`. A call `out(*it)` is
recorded by appending the iterator `it` to `out`. The recursion is bounded by
`fuel`; `none` means that the bound was reached. -/
def SimplifyDP {P D : Type} [LinearOrder D] [Zero D] (dist : P → P → P → D) (p : Nat → P)
    (epsilon : D) : Nat → Nat → Nat → List Nat → Option (List Nat)
  | 0, _, _, _ => none
  | fuel + 1, first, last, out =>
    let maxDist := MaxDistance dist p first last
    if maxDist.2 = last ∨ maxDist.1 < epsilon then some (out ++ [last])
    else
      match SimplifyDP dist p epsilon fuel first maxDist.2 out with
      | some out => SimplifyDP dist p epsilon fuel maxDist.2 last out
      | none => none

/-- `impl::SimplifyOptimalRes`. -/
structure SimplifyOptimalRes where
  m_NextPoint : Int
  m_PointCount : Nat
deriving DecidableEq, Repr

/-- The default constructor sets `m_PointCount` to `uint32_t(-1)`; `m_NextPoint` is
left unset, which is represented by `0` here and by a parameter in the algorithm. -/
instance : Inhabited SimplifyOptimalRes := ⟨⟨0, 2 ^ 32 - 1⟩⟩

end impl

/-- `SimplifyDP` for the range `[first, last)`: the iterators whose points are passed
to the sink, in order. The helper gets `last - first + 1` levels of recursion. -/
def SimplifyDP {P D : Type} [LinearOrder D] [Zero D] (dist : P → P → P → D) (p : Nat → P)
    (first last : Nat) (epsilon : D) : Option (List Nat) :=
  if first ≠ last then
    impl.SimplifyDP dist p epsilon (last - first + 1) first (last - 1) [first]
  else some []

/-- Every point strictly between the iterators `i` and `j` is closer than `epsilon`
to the segment from `p i` to `p j`. -/
def Hop {P D : Type} [LinearOrder D] (dist : P → P → P → D) (p : Nat → P) (epsilon : D)
    (i j : Nat) : Prop :=
  ∀ m, i < m → m < j → dist (p i) (p j) (p m) < epsilon

/-- An index chain from `first` to `last`: strictly increasing, every hop within
`epsilon`. Its length is the number of points of the simplified polyline. -/
def ValidChain {P D : Type} [LinearOrder D] (dist : P → P → P → D) (p : Nat → P) (epsilon : D)
    (first last : Nat) (c : List Nat) : Prop :=
  c.head? = some first ∧ c.getLast? = some last ∧ List.Chain' (· < ·) c ∧
    List.Chain' (Hop dist p epsilon) c

/-- Field `m_PointCount` of the table entry `F[i]`. -/
def cnt (F : List impl.SimplifyOptimalRes) (i : Nat) : Nat := (F.getD i default).m_PointCount

/-- Field `m_NextPoint` of the table entry `F[i]`. -/
def nxt (F : List impl.SimplifyOptimalRes) (i : Nat) : Int := (F.getD i default).m_NextPoint

/-- Value of a 64-bit signed integer converted to `int32_t`. -/
def toInt32 (v : Int) : Int := (v + 2 ^ 31) % 2 ^ 32 - 2 ^ 31

/-- Inner loop of `SimplifyNearOptimal` for a fixed `i`:
`for (falseCount, j; j < n && falseCount < kMaxFalseLookAhead; ++j)`, with `steps`
values of `j` left below `n`. -/
def SimplifyNearOptimal.scan {P D : Type} [LinearOrder D] [Zero D] (dist : P → P → P → D)
    (p : Nat → P) (kMaxFalseLookAhead : Int) (first : Nat) (epsilon : D) (i : Nat) :
    Nat → Nat → Int → List impl.SimplifyOptimalRes → List impl.SimplifyOptimalRes
  | 0, _, _, F => F
  | steps + 1, j, falseCount, F =>
    if falseCount < kMaxFalseLookAhead then
      let newPointCount := ((F.getD j default).m_PointCount + 1) % 2 ^ 32
      if newPointCount < (F.getD i default).m_PointCount then
        if (impl.MaxDistance dist p (first + i) (first + j)).1 < epsilon then
          SimplifyNearOptimal.scan dist p kMaxFalseLookAhead first epsilon i steps (j + 1)
            falseCount (F.set i ⟨j, newPointCount⟩)
        else
          SimplifyNearOptimal.scan dist p kMaxFalseLookAhead first epsilon i steps (j + 1)
            (falseCount + 1) F
      else
        SimplifyNearOptimal.scan dist p kMaxFalseLookAhead first epsilon i steps (j + 1)
          falseCount F
    else F

/-- Outer loop of `SimplifyNearOptimal`: `for (i = c - 1; i >= 0; --i)`. -/
def SimplifyNearOptimal.fill {P D : Type} [LinearOrder D] [Zero D] (dist : P → P → P → D)
    (p : Nat → P) (kMaxFalseLookAhead : Int) (first : Nat) (epsilon : D) (n : Nat) :
    Nat → List impl.SimplifyOptimalRes → List impl.SimplifyOptimalRes
  | 0, F => F
  | c + 1, F =>
    SimplifyNearOptimal.fill dist p kMaxFalseLookAhead first epsilon n c
      (SimplifyNearOptimal.scan dist p kMaxFalseLookAhead first epsilon c (n - (c + 1)) (c + 1) 0 F)

/-- Final loop of `SimplifyNearOptimal`:
`for (i; i < n - 1; i = F[i].m_NextPoint) out(*(first + i))`, bounded by `fuel`;
`none` when the bound is reached or `i` leaves the table. -/
def SimplifyNearOptimal.walk (F : List impl.SimplifyOptimalRes) (first : Nat) (n : Int) :
    Nat → Int → List Nat → Option (List Nat)
  | 0, _, _ => none
  | fuel + 1, i, out =>
    if i < n - 1 then
      if i < 0 then none
      else SimplifyNearOptimal.walk F first n fuel (F.getD i.toNat default).m_NextPoint
        (out ++ [first + i.toNat])
    else some out

/-- `SimplifyNearOptimal`: the iterators whose points are passed to the sink, in
order. `junk` is the indeterminate value of `m_NextPoint` in a default-constructed
table entry. -/
def SimplifyNearOptimal {P D : Type} [LinearOrder D] [Zero D] (dist : P → P → P → D)
    (p : Nat → P) (junk : Int) (kMaxFalseLookAhead : Int) (first last : Nat) (epsilon : D) :
    Option (List Nat) :=
  let n : Int := toInt32 ((last : Int) - first + 1)
  if n ≤ 2 then some [first]
  else
    let F : List impl.SimplifyOptimalRes := List.replicate n.toNat ⟨junk, 2 ^ 32 - 1⟩
    let F := F.set (n.toNat - 1) ⟨n, 1⟩
    let F := SimplifyNearOptimal.fill dist p kMaxFalseLookAhead first epsilon n.toNat
      (n.toNat - 1) F
    SimplifyNearOptimal.walk F first n n.toNat 0 []

/-- Loop of `AccumulateSkipSmallTrg::operator()`: pop the last point of `m_vec` while
it makes a triangle with `p` whose height is below `m_eps`. Every iteration pops, so
`fuel = m_vec.size()` iterations are never exceeded. -/
def AccumulateSkipSmallTrg.popLoop {P D : Type} [LinearOrder D] [Inhabited P]
    (dist : P → P → P → D) (m_eps : D) (p : P) : Nat → List P → List P
  | 0, m_vec => m_vec
  | fuel + 1, m_vec =>
    let count := m_vec.length
    if count ≥ 2 then
      if dist (m_vec.getD (count - 2) default) p (m_vec.getD (count - 1) default) < m_eps then
        AccumulateSkipSmallTrg.popLoop dist m_eps p fuel m_vec.dropLast
      else m_vec
    else m_vec

/-- `AccumulateSkipSmallTrg::operator()` as a function of the accumulated vector. -/
def AccumulateSkipSmallTrg.call {P D : Type} [LinearOrder D] [Inhabited P]
    (dist : P → P → P → D) (m_eps : D) (m_vec : List P) (p : P) : List P :=
  AccumulateSkipSmallTrg.popLoop dist m_eps p m_vec.length m_vec ++ [p]

/-- The accumulated vector after feeding `points` one by one, starting from `m_vec`. -/
def AccumulateSkipSmallTrg.feed {P D : Type} [LinearOrder D] [Inhabited P]
    (dist : P → P → P → D) (m_eps : D) (m_vec : List P) (points : List P) : List P :=
  points.foldl (AccumulateSkipSmallTrg.call dist m_eps) m_vec

/-- No three consecutive points `(a, b, c)` of `v` have `DistanceF(a, c)(b) < eps`. -/
def NoSmallTrg {P D : Type} [LinearOrder D] [Inhabited P] (dist : P → P → P → D) (eps : D)
    (v : List P) : Prop :=
  ∀ i, i + 2 < v.length →
    ¬ (dist (v.getD i default) (v.getD (i + 2) default) (v.getD (i + 1) default) < eps)

section
variable {P D : Type} [LinearOrder D] [Zero D] (dist : P → P → P → D) (p : Nat → P)
  (k : Int) (first : Nat) (epsilon : D)

/-- Invariant of the table `F` of `SimplifyNearOptimal` for `N` points once the rows
`c, ..., N - 1` are filled: those rows hold a successor within `epsilon` and the count
of the chain through it, the rows below `c` are still unreached, and with a look-ahead
`k >= N` every filled row holds the least count over all successors within `epsilon`. -/
def TableInv (N c : Nat) (F : List impl.SimplifyOptimalRes) : Prop :=
  F.length = N ∧ cnt F (N - 1) = 1 ∧
  (∀ t, t < c → cnt F t = 2 ^ 32 - 1) ∧
  (∀ t, c ≤ t → t < N → 1 ≤ cnt F t ∧ cnt F t ≤ N - t) ∧
  (∀ i, c ≤ i → i + 1 < N → ∃ j1 : Nat, nxt F i = (j1 : Int) ∧ i < j1 ∧ j1 < N ∧
    cnt F i = cnt F j1 + 1 ∧
    (impl.MaxDistance dist p (first + i) (first + j1)).1 < epsilon) ∧
  ((N : Int) ≤ k → ∀ i, c ≤ i → i + 1 < N → ∀ t, i < t → t < N →
    (impl.MaxDistance dist p (first + i) (first + t)).1 < epsilon → cnt F i ≤ cnt F t + 1)

end

/-! ## Concrete inputs -/

/-- Squared distance from `q` to the segment from `a` to `b`, on integer points. -/
def segmentDistSq (a b q : Int × Int) : ℚ :=
  let dx := b.1 - a.1
  let dy := b.2 - a.2
  let len := dx * dx + dy * dy
  if len = 0 then (((q.1 - a.1) ^ 2 + (q.2 - a.2) ^ 2 : Int) : ℚ)
  else
    let t : ℚ := (((q.1 - a.1) * dx + (q.2 - a.2) * dy : Int) : ℚ) / (len : ℚ)
    let t := if t < 0 then 0 else if t > 1 then 1 else t
    ((q.1 : ℚ) - (a.1 + t * dx)) ^ 2 + ((q.2 : ℚ) - (a.2 + t * dy)) ^ 2

/-- The points `(0,0), (1,0), (2,0), ...` of a straight line. -/
def straightLine (i : Nat) : Int × Int := ((i : Int), 0)

/-- The spike `(0,0), (5,0), (5,5), (5,0), (10,0)`. -/
def spike (i : Nat) : Int × Int :=
  [((0 : Int), (0 : Int)), (5, 0), (5, 5), (5, 0), (10, 0)].getD i (0, 0)

/-- Eight points on which a longer look-ahead gives a longer result. -/
def zigzag (i : Nat) : Int × Int :=
  [((3 : Int), (3 : Int)), (1, 2), (4, 1), (4, 0), (3, 3), (3, 1), (2, 0), (2, 2)].getD i (0, 0)

end Simplification

/-! # Lemmas -/

namespace GeoCoding

theorem forLoop_invariant {σ ε : Type} (body : Nat → σ → Except ε σ) (I : Nat → σ) :
    ∀ (k lo : Nat), (∀ j, lo ≤ j → j < lo + k → body j (I j) = .ok (I (j + 1))) →
      forLoop body lo k (I lo) = .ok (I (lo + k))
  | 0, lo, _ => by simp [forLoop]
  | k + 1, lo, h => by
    have h0 := h lo (le_refl _) (by omega)
    have ih := forLoop_invariant body I k (lo + 1) (fun j h1 h2 => h j (by omega) (by omega))
    simp only [forLoop, h0, ih]
    congr 2; omega

theorem getD_take {α : Type} (l : List α) (d : α) {i j : Nat} (h : j < i) :
    (l.take i).getD j d = l.getD j d := by
  simp [List.getD_eq_getElem?_getD, List.getElem?_take, h]

theorem take_succ_getD {α : Type} (l : List α) (d : α) {i : Nat} (h : i < l.length) :
    l.take (i + 1) = l.take i ++ [l.getD i d] := by
  rw [List.take_succ]
  simp [List.getD_eq_getElem?_getD, List.getElem?_eq_getElem h]

theorem getD_append_last {α : Type} (l : List α) (a d : α) :
    (l ++ [a]).getD l.length d = a := by
  simp [List.getD_eq_getElem?_getD]

theorem getD_append_lt {α : Type} (l : List α) (a d : α) {j : Nat} (h : j < l.length) :
    (l ++ [a]).getD j d = l.getD j d := by
  simp [List.getD_eq_getElem?_getD, List.getElem?_append_left h]

theorem decode_encode_delta (a b : PointU) (ha : a.inLattice) :
    DecodeDelta (EncodeDelta a b) b = a := by
  obtain ⟨ax, ay⟩ := a
  obtain ⟨h1, h2⟩ := ha
  simp only [DecodeDelta, EncodeDelta, PointU.mk.injEq] at *
  norm_num at h1 h2 ⊢
  constructor <;> omega

@[simp] theorem length_decodedUpTo (P : List PointU → PointU) (ds : List Delta) :
    ∀ i, (decodedUpTo P ds i).length = i
  | 0 => rfl
  | i + 1 => by simp [decodedUpTo, length_decodedUpTo P ds i]

theorem decodedUpTo_take (P : List PointU → PointU) (ds : List Delta) :
    ∀ (n m : Nat), m ≤ n → (decodedUpTo P ds n).take m = decodedUpTo P ds m
  | 0, m, h => by
    have : m = 0 := by omega
    subst this; rfl
  | n + 1, m, h => by
    rcases Nat.lt_or_ge m (n + 1) with h1 | h1
    · rw [decodedUpTo, List.take_append_of_le_length (by simp; omega)]
      exact decodedUpTo_take P ds n m (by omega)
    · have : m = n + 1 := by omega
      subst this
      exact List.take_of_length_le (by simp)

theorem decodedUpTo_congr (P : List PointU → PointU) (ds ds1 : List Delta) :
    ∀ i, (∀ j, j < i → ds.getD j default = ds1.getD j default) →
      decodedUpTo P ds i = decodedUpTo P ds1 i
  | 0, _ => rfl
  | i + 1, h => by
    have ih := decodedUpTo_congr P ds ds1 i (fun j hj => h j (by omega))
    simp only [decodedUpTo, ih, h i (by omega)]

@[simp] theorem length_encTable (P : List PointU → PointU) (pts : List PointU) :
    (encTable P pts).length = pts.length := by
  simp [encTable]

theorem getD_encTable (P : List PointU → PointU) (pts : List PointU) (d : Delta) {i : Nat}
    (h : i < pts.length) :
    (encTable P pts).getD i d = EncodeDelta (pts.getD i default) (P (pts.take i)) := by
  simp [encTable, List.getD_eq_getElem?_getD, List.getElem?_map, List.getElem?_range h]

theorem encTable_take (P : List PointU → PointU) (pts : List PointU) (m : Nat)
    (h : m ≤ pts.length) : (encTable P pts).take m = encTable P (pts.take m) := by
  apply List.ext_getElem
  · simp
  · intro i h1 h2
    have h3 : i < m := by simp at h1; omega
    have h4 : i < pts.length := by omega
    have e1 := getD_encTable P pts default h4
    have h5 : i < (pts.take m).length := by simp; omega
    have e2 := getD_encTable P (pts.take m) default h5
    rw [getD_take _ _ h3, List.take_take, Nat.min_eq_left (Nat.le_of_lt h3)] at e2
    rw [List.getD_eq_getElem _ _ (by simp; omega)] at e1
    rw [List.getD_eq_getElem _ _ h2] at e2
    rw [List.getElem_take, e1, e2]

theorem decodedUpTo_encTable (P : List PointU → PointU) (pts : List PointU)
    (hp : AllInLattice pts) :
    ∀ i, i ≤ pts.length → decodedUpTo P (encTable P pts) i = pts.take i
  | 0, _ => by simp [decodedUpTo]
  | i + 1, h => by
    have ih := decodedUpTo_encTable P pts hp i (by omega)
    have hi : i < pts.length := by omega
    have hm : pts.getD i default ∈ pts := by
      rw [List.getD_eq_getElem?_getD, List.getElem?_eq_getElem hi]
      simp
    rw [decodedUpTo, ih, getD_encTable P pts default hi, decode_encode_delta _ _ (hp _ hm),
      take_succ_getD pts default hi]

theorem enc_step (P : List PointU → PointU) (pts : List PointU) (ds0 : List Delta) (q : PointU)
    {j : Nat} (hj : j < pts.length) (hq : q = P (pts.take j)) :
    ds0 ++ (encTable P pts).take j ++ [EncodeDelta (pts.getD j default) q] =
      ds0 ++ (encTable P pts).take (j + 1) := by
  rw [take_succ_getD (encTable P pts) default (by simpa using hj), getD_encTable P pts default hj,
    hq, List.append_assoc]

theorem enc_done (P : List PointU → PointU) (pts : List PointU) (ds0 : List Delta) {j : Nat}
    (hj : pts.length ≤ j) : ds0 ++ (encTable P pts).take j = ds0 ++ encTable P pts := by
  rw [List.take_of_length_le (by simpa using hj)]

theorem back_take {j : Nat} (pts : List PointU) (hj : j ≤ pts.length) (h0 : 0 < j) :
    back (pts.take j) = pts.getD (j - 1) default := by
  simp only [back, List.length_take, Nat.min_eq_left hj]
  exact getD_take pts default (by omega)

theorem predPrev1_take (basePoint : PointU) (pts : List PointU) {j : Nat} (hj : j ≤ pts.length) :
    predPrev1 basePoint (pts.take j) =
      if j = 0 then basePoint else pts.getD (j - 1) default := by
  simp only [predPrev1, List.length_take, Nat.min_eq_left hj]
  split_ifs with h1
  · rfl
  · exact back_take pts hj (by omega)

theorem predPrev2_take (fo : FloatOracle) (basePoint maxPoint : PointU) (pts : List PointU)
    {j : Nat} (hj : j ≤ pts.length) :
    predPrev2 fo basePoint maxPoint (pts.take j) =
      if j = 0 then basePoint else if j = 1 then pts.getD 0 default
      else PredictPointInPolyline fo maxPoint (pts.getD (j - 1) default)
        (pts.getD (j - 2) default) := by
  simp only [predPrev2, List.length_take, Nat.min_eq_left hj]
  split_ifs with h1 h2
  · rfl
  · subst h2; exact back_take pts hj (by omega)
  · rw [getD_take pts default (by omega), getD_take pts default (by omega)]

theorem predPrev3_take (fo : FloatOracle) (basePoint maxPoint : PointU) (pts : List PointU)
    {j : Nat} (hj : j ≤ pts.length) :
    predPrev3 fo basePoint maxPoint (pts.take j) =
      if j = 0 then basePoint else if j = 1 then pts.getD 0 default
      else if j = 2 then
        PredictPointInPolyline fo maxPoint (pts.getD 1 default) (pts.getD 0 default)
      else ClampPoint maxPoint (fo.circular (pts.getD (j - 1) default)
        (pts.getD (j - 2) default) (pts.getD (j - 3) default)) := by
  simp only [predPrev3, List.length_take, Nat.min_eq_left hj]
  split_ifs with h1 h2 h3
  · rfl
  · subst h2; exact back_take pts hj (by omega)
  · subst h3; rw [getD_take pts default (by omega), back_take pts hj (by omega)]
  · rw [getD_take pts default (by omega), getD_take pts default (by omega),
      getD_take pts default (by omega)]

theorem predStrip_take (basePoint maxPoint : PointU) (pts : List PointU)
    {j : Nat} (hj : j ≤ pts.length) :
    predStrip basePoint maxPoint (pts.take j) =
      if j = 0 then basePoint else if j < 3 then pts.getD (j - 1) default
      else PredictPointInTriangle maxPoint (pts.getD (j - 1) default)
        (pts.getD (j - 2) default) (pts.getD (j - 3) default) := by
  simp only [predStrip, List.length_take, Nat.min_eq_left hj]
  split_ifs with h1 h2
  · rfl
  · exact back_take pts hj (by omega)
  · rw [getD_take pts default (by omega), getD_take pts default (by omega),
      getD_take pts default (by omega)]

theorem encTable_nil (P : List PointU → PointU) : encTable P [] = [] := rfl

theorem encodePrev1_push (pts : List PointU) (basePoint : PointU) (ds0 : List Delta) :
    EncodePolylinePrev1.push pts basePoint ds0 =
      .ok (ds0 ++ encTable (predPrev1 basePoint) pts) := by
  unfold EncodePolylinePrev1.push
  by_cases h0 : pts.length > 0
  · simp only [h0, if_true]
    have e0 : ds0 ++ [EncodeDelta (pts.getD 0 default) basePoint] =
        ds0 ++ (encTable (predPrev1 basePoint) pts).take 1 := by
      have := enc_step (predPrev1 basePoint) pts ds0 basePoint h0 (by simp [predPrev1])
      simpa using this
    rw [e0, forLoop_invariant _ (fun j => ds0 ++ (encTable (predPrev1 basePoint) pts).take j)
      (pts.length - 1) 1]
    · rw [enc_done]; omega
    · intro j h1 h2
      have hj : j < pts.length := by omega
      rw [enc_step (predPrev1 basePoint) pts ds0 _ hj]
      rw [predPrev1_take basePoint pts (by omega), if_neg (by omega)]
  · have : pts = [] := by
      cases pts with
      | nil => rfl
      | cons a l => simp at h0
    subst this
    simp [encTable_nil]

theorem list_eq_nil_of_not_pos {α : Type} (l : List α) (h : ¬ l.length > 0) : l = [] := by
  cases l with
  | nil => rfl
  | cons a l => simp at h

theorem decodePrev1_eq (ds : List Delta) (basePoint maxPoint : PointU) :
    DecodePolylinePrev1 ds basePoint maxPoint [] =
      .ok (decodedUpTo (predPrev1 basePoint) ds ds.length) := by
  unfold DecodePolylinePrev1
  by_cases h0 : ds.length > 0
  · simp only [h0, if_true]
    have e0 : [] ++ [DecodeDelta (ds.getD 0 default) basePoint] =
        decodedUpTo (predPrev1 basePoint) ds 1 := by
      simp [decodedUpTo, predPrev1]
    rw [e0, forLoop_invariant _ (fun j => decodedUpTo (predPrev1 basePoint) ds j) (ds.length - 1) 1]
    · congr 2; omega
    · intro j h1 h2
      simp only [decodedUpTo, predPrev1, length_decodedUpTo, if_neg (show ¬ j = 0 by omega)]
  · have := list_eq_nil_of_not_pos ds h0
    subst this
    simp [decodedUpTo]

theorem decodePrev2_eq (fo : FloatOracle) (ds : List Delta) (basePoint maxPoint : PointU) :
    DecodePolylinePrev2 fo ds basePoint maxPoint [] =
      .ok (decodedUpTo (predPrev2 fo basePoint maxPoint) ds ds.length) := by
  unfold DecodePolylinePrev2
  by_cases h0 : ds.length > 0
  · simp only [h0, if_true]
    have e0 : [] ++ [DecodeDelta (ds.getD 0 default) basePoint] =
        decodedUpTo (predPrev2 fo basePoint maxPoint) ds 1 := by
      simp [decodedUpTo, predPrev2]
    rw [e0]
    by_cases h1 : ds.length > 1
    · simp only [h1, if_true]
      have e1 : decodedUpTo (predPrev2 fo basePoint maxPoint) ds 1 ++
          [DecodeDelta (ds.getD 1 default) (back (decodedUpTo (predPrev2 fo basePoint maxPoint) ds 1))]
          = decodedUpTo (predPrev2 fo basePoint maxPoint) ds 2 := by
        simp [decodedUpTo, predPrev2]
      rw [e1, forLoop_invariant _ (fun j => decodedUpTo (predPrev2 fo basePoint maxPoint) ds j)
        (ds.length - 2) 2]
      · congr 2; omega
      · intro j h2 h3
        simp only [decodedUpTo, predPrev2, length_decodedUpTo, if_neg (show ¬ j = 0 by omega),
          if_neg (show ¬ j = 1 by omega)]
    · have : ds.length = 1 := by omega
      simp [h1, this]
  · have := list_eq_nil_of_not_pos ds h0
    subst this
    simp [decodedUpTo]

theorem forLoop_ok_inv {σ ε : Type} (body : Nat → σ → Except ε σ) (Inv : Nat → σ → Prop)
    (hstep : ∀ j s s1, Inv j s → body j s = .ok s1 → Inv (j + 1) s1) :
    ∀ (k lo : Nat) (s s2 : σ), Inv lo s → forLoop body lo k s = .ok s2 → Inv (lo + k) s2
  | 0, lo, s, s2, h, e => by
    simp only [forLoop, Except.ok.injEq] at e
    subst e; exact h
  | k + 1, lo, s, s2, h, e => by
    simp only [forLoop] at e
    cases hb : body lo s with
    | error err => rw [hb] at e; cases e
    | ok s1 =>
      rw [hb] at e
      have := forLoop_ok_inv body Inv hstep k (lo + 1) s1 s2 (hstep lo s s1 h hb) e
      have e2 : lo + (k + 1) = lo + 1 + k := by omega
      rw [e2]; exact this

theorem getD_decodedUpTo_le (P : List PointU → PointU) (ds : List Delta) {i j n : Nat}
    (h1 : i < j) (h2 : j ≤ n) :
    (decodedUpTo P ds j).getD i default = (decodedUpTo P ds n).getD i default := by
  rw [← decodedUpTo_take P ds n j h2, getD_take _ _ h1]

theorem decodeStrip_eq (ds : List Delta) (basePoint maxPoint : PointU)
    (hl : ds.length = 0 ∨ 3 ≤ ds.length) :
    DecodeTriangleStrip ds basePoint maxPoint [] =
      .ok (decodedUpTo (predStrip basePoint maxPoint) ds ds.length) := by
  unfold DecodeTriangleStrip
  by_cases h0 : ds.length > 0
  · have h3 : ds.length > 2 := by omega
    simp only [h0, h3, if_true, not_true_eq_false, if_false]
    have e0 : [] ++ [DecodeDelta (ds.getD 0 default) basePoint] =
        decodedUpTo (predStrip basePoint maxPoint) ds 1 := by
      simp [decodedUpTo, predStrip]
    rw [e0]
    have e1 : decodedUpTo (predStrip basePoint maxPoint) ds 1 ++
        [DecodeDelta (ds.getD 1 default) (back (decodedUpTo (predStrip basePoint maxPoint) ds 1))]
        = decodedUpTo (predStrip basePoint maxPoint) ds 2 := by
      simp [decodedUpTo, predStrip]
    rw [e1]
    have e2 : decodedUpTo (predStrip basePoint maxPoint) ds 2 ++
        [DecodeDelta (ds.getD 2 default) (back (decodedUpTo (predStrip basePoint maxPoint) ds 2))]
        = decodedUpTo (predStrip basePoint maxPoint) ds 3 := by
      simp [decodedUpTo, predStrip]
    rw [e2, forLoop_invariant _ (fun j => decodedUpTo (predStrip basePoint maxPoint) ds j)
      (ds.length - 3) 3]
    · congr 2; omega
    · intro j h4 h5
      simp only [decodedUpTo, predStrip, length_decodedUpTo, if_neg (show ¬ j = 0 by omega),
        if_neg (show ¬ j < 3 by omega)]
  · have := list_eq_nil_of_not_pos ds h0
    subst this
    simp [decodedUpTo]

theorem decodeStrip_error (ds : List Delta) (basePoint maxPoint : PointU) (pts0 : List PointU)
    (hl : ds.length = 1 ∨ ds.length = 2) :
    DecodeTriangleStrip ds basePoint maxPoint pts0 = .error .stripLength := by
  unfold DecodeTriangleStrip
  have h0 : ds.length > 0 := by omega
  have h3 : ¬ ds.length > 2 := by omega
  simp only [h0, h3, if_true, not_false_eq_true]

theorem decodePrev3_eq (fo : FloatOracle) (ds : List Delta) (basePoint maxPoint : PointU)
    (hx : basePoint.x ≤ maxPoint.x) (hy : basePoint.y ≤ maxPoint.y)
    (hw : WellFormedPrev3 (decodedUpTo (predPrev3 fo basePoint maxPoint) ds ds.length)) :
    DecodePolylinePrev3 fo ds basePoint maxPoint [] =
      .ok (decodedUpTo (predPrev3 fo basePoint maxPoint) ds ds.length) := by
  unfold DecodePolylinePrev3
  simp only [hx, hy, not_true_eq_false, if_false]
  by_cases h0 : ds.length > 0
  · simp only [h0, if_true]
    have e0 : [] ++ [DecodeDelta (ds.getD 0 default) basePoint] =
        decodedUpTo (predPrev3 fo basePoint maxPoint) ds 1 := by
      simp [decodedUpTo, predPrev3]
    rw [e0]
    by_cases h1 : ds.length > 1
    · simp only [h1, if_true]
      have e1 : decodedUpTo (predPrev3 fo basePoint maxPoint) ds 1 ++
          [DecodeDelta (ds.getD 1 default) (back (decodedUpTo (predPrev3 fo basePoint maxPoint) ds 1))]
          = decodedUpTo (predPrev3 fo basePoint maxPoint) ds 2 := by
        simp [decodedUpTo, predPrev3]
      rw [e1]
      by_cases h2 : ds.length > 2
      · simp only [h2, if_true]
        have e2 : decodedUpTo (predPrev3 fo basePoint maxPoint) ds 2 ++
            [DecodeDelta (ds.getD 2 default) (PredictPointInPolyline fo maxPoint
              (back (decodedUpTo (predPrev3 fo basePoint maxPoint) ds 2))
              (back (decodedUpTo (predPrev3 fo basePoint maxPoint) ds 1)))]
            = decodedUpTo (predPrev3 fo basePoint maxPoint) ds 3 := by
          simp [decodedUpTo, predPrev3, back]
        rw [e2, forLoop_invariant _ (fun j => decodedUpTo (predPrev3 fo basePoint maxPoint) ds j)
          (ds.length - 3) 3]
        · congr 2; omega
        · intro j h4 h5
          have hne := hw j (by simp; omega) h4
          rw [← getD_decodedUpTo_le _ ds (show j - 2 < j by omega) (show j ≤ ds.length by omega),
            ← getD_decodedUpTo_le _ ds (show j - 3 < j by omega) (show j ≤ ds.length by omega)] at hne
          simp only [length_decodedUpTo, PredictPointInPolyline3, if_neg hne]
          simp only [decodedUpTo, predPrev3, length_decodedUpTo, if_neg (show ¬ j = 0 by omega),
            if_neg (show ¬ j = 1 by omega), if_neg (show ¬ j = 2 by omega)]
      · have : ds.length = 2 := by omega
        simp [h2, this]
    · have : ds.length = 1 := by omega
      simp [h1, this]
  · have := list_eq_nil_of_not_pos ds h0
    subst this
    simp [decodedUpTo]

theorem wellFormedPrev3_of_length_le (pts : List PointU) (h : pts.length ≤ 3) :
    WellFormedPrev3 pts := by
  intro i h1 h2; omega

theorem decodePrev3_ok (fo : FloatOracle) (ds : List Delta) (basePoint maxPoint : PointU)
    (hx : basePoint.x ≤ maxPoint.x) (hy : basePoint.y ≤ maxPoint.y) (r : List PointU)
    (hr : DecodePolylinePrev3 fo ds basePoint maxPoint [] = .ok r) :
    r = decodedUpTo (predPrev3 fo basePoint maxPoint) ds ds.length ∧ WellFormedPrev3 r := by
  by_cases hn : ds.length ≤ 3
  · have hw : WellFormedPrev3 (decodedUpTo (predPrev3 fo basePoint maxPoint) ds ds.length) :=
      wellFormedPrev3_of_length_le _ (by simpa using hn)
    rw [decodePrev3_eq fo ds basePoint maxPoint hx hy hw] at hr
    cases hr
    exact ⟨rfl, hw⟩
  · unfold DecodePolylinePrev3 at hr
    simp only [hx, hy, not_true_eq_false, if_false, show ds.length > 0 by omega,
      show ds.length > 1 by omega, show ds.length > 2 by omega, if_true] at hr
    have e0 : [] ++ [DecodeDelta (ds.getD 0 default) basePoint] =
        decodedUpTo (predPrev3 fo basePoint maxPoint) ds 1 := by
      simp [decodedUpTo, predPrev3]
    have e1 : decodedUpTo (predPrev3 fo basePoint maxPoint) ds 1 ++
        [DecodeDelta (ds.getD 1 default) (back (decodedUpTo (predPrev3 fo basePoint maxPoint) ds 1))]
        = decodedUpTo (predPrev3 fo basePoint maxPoint) ds 2 := by
      simp [decodedUpTo, predPrev3]
    have e2 : decodedUpTo (predPrev3 fo basePoint maxPoint) ds 2 ++
        [DecodeDelta (ds.getD 2 default) (PredictPointInPolyline fo maxPoint
          (back (decodedUpTo (predPrev3 fo basePoint maxPoint) ds 2))
          (back (decodedUpTo (predPrev3 fo basePoint maxPoint) ds 1)))]
        = decodedUpTo (predPrev3 fo basePoint maxPoint) ds 3 := by
      simp [decodedUpTo, predPrev3, back]
    rw [e0, e1, e2] at hr
    have key := forLoop_ok_inv _
      (fun j s => 3 ≤ j ∧ s = decodedUpTo (predPrev3 fo basePoint maxPoint) ds j ∧
        ∀ i, 3 ≤ i → i < j → s.getD (i - 2) default ≠ s.getD (i - 3) default)
      ?_ (ds.length - 3) 3 _ r ⟨le_refl _, rfl, fun i h1 h2 => by omega⟩ hr
    · obtain ⟨_, k1, k2⟩ := key
      have e3 : 3 + (ds.length - 3) = ds.length := by omega
      rw [e3] at k1
      refine ⟨k1, ?_⟩
      intro i h2 h1
      apply k2 i h1
      rw [k1] at h2
      simp at h2
      omega
    · rintro j s s1 ⟨hj, hs, hwf⟩ hb
      subst hs
      simp only [length_decodedUpTo, PredictPointInPolyline3] at hb
      split_ifs at hb with hne
      simp only [Except.ok.injEq] at hb
      have hs1 : s1 = decodedUpTo (predPrev3 fo basePoint maxPoint) ds (j + 1) := by
        rw [← hb]
        simp only [decodedUpTo, predPrev3, length_decodedUpTo, if_neg (show ¬ j = 0 by omega),
          if_neg (show ¬ j = 1 by omega), if_neg (show ¬ j = 2 by omega)]
      refine ⟨by omega, hs1, ?_⟩
      intro i h1 h2
      rw [hs1, ← getD_decodedUpTo_le _ ds (show i - 2 < j by omega) (show j ≤ j + 1 by omega),
        ← getD_decodedUpTo_le _ ds (show i - 3 < j by omega) (show j ≤ j + 1 by omega)]
      rcases Nat.lt_or_ge i j with h3 | h3
      · exact hwf i h1 h3
      · have : i = j := by omega
        subst this
        exact hne

theorem encodePrev2_push (fo : FloatOracle) (pts : List PointU) (basePoint maxPoint : PointU)
    (ds0 : List Delta) :
    EncodePolylinePrev2.push fo pts basePoint maxPoint ds0 =
      .ok (ds0 ++ encTable (predPrev2 fo basePoint maxPoint) pts) := by
  unfold EncodePolylinePrev2.push
  by_cases h0 : pts.length > 0
  · simp only [h0, if_true]
    have e0 : ds0 ++ [EncodeDelta (pts.getD 0 default) basePoint] =
        ds0 ++ (encTable (predPrev2 fo basePoint maxPoint) pts).take 1 := by
      have := enc_step (predPrev2 fo basePoint maxPoint) pts ds0 basePoint h0 (by simp [predPrev2])
      simpa using this
    rw [e0]
    by_cases h1 : pts.length > 1
    · simp only [h1, if_true]
      rw [enc_step (predPrev2 fo basePoint maxPoint) pts ds0 _ h1
        (by rw [predPrev2_take fo basePoint maxPoint pts (by omega)]; simp)]
      rw [forLoop_invariant _
        (fun j => ds0 ++ (encTable (predPrev2 fo basePoint maxPoint) pts).take j)
        (pts.length - 2) 2]
      · rw [enc_done]; omega
      · intro j h2 h3
        have hj : j < pts.length := by omega
        rw [enc_step (predPrev2 fo basePoint maxPoint) pts ds0 _ hj]
        rw [predPrev2_take fo basePoint maxPoint pts (by omega), if_neg (by omega),
          if_neg (by omega)]
    · simp only [h1, if_false]
      rw [enc_done]; omega
  · have := list_eq_nil_of_not_pos pts h0
    subst this
    simp [encTable_nil]

theorem encodePrev3_push (fo : FloatOracle) (pts : List PointU) (basePoint maxPoint : PointU)
    (ds0 : List Delta) (hw : WellFormedPrev3 pts) :
    EncodePolylinePrev3.push fo pts basePoint maxPoint ds0 =
      .ok (ds0 ++ encTable (predPrev3 fo basePoint maxPoint) pts) := by
  unfold EncodePolylinePrev3.push
  by_cases h0 : pts.length > 0
  · simp only [h0, if_true]
    have e0 : ds0 ++ [EncodeDelta (pts.getD 0 default) basePoint] =
        ds0 ++ (encTable (predPrev3 fo basePoint maxPoint) pts).take 1 := by
      have := enc_step (predPrev3 fo basePoint maxPoint) pts ds0 basePoint h0 (by simp [predPrev3])
      simpa using this
    rw [e0]
    by_cases h1 : pts.length > 1
    · simp only [h1, if_true]
      rw [enc_step (predPrev3 fo basePoint maxPoint) pts ds0 _ h1
        (by rw [predPrev3_take fo basePoint maxPoint pts (by omega)]; simp)]
      by_cases h2 : pts.length > 2
      · simp only [h2, if_true]
        rw [enc_step (predPrev3 fo basePoint maxPoint) pts ds0 _ h2
          (by rw [predPrev3_take fo basePoint maxPoint pts (by omega)]; simp)]
        rw [forLoop_invariant _
          (fun j => ds0 ++ (encTable (predPrev3 fo basePoint maxPoint) pts).take j)
          (pts.length - 3) 3]
        · rw [enc_done]; omega
        · intro j h3 h4
          have hj : j < pts.length := by omega
          simp only [PredictPointInPolyline3, if_neg (hw j hj h3)]
          rw [enc_step (predPrev3 fo basePoint maxPoint) pts ds0 _ hj]
          rw [predPrev3_take fo basePoint maxPoint pts (by omega), if_neg (by omega),
            if_neg (by omega), if_neg (by omega)]
      · simp only [h2, if_false]
        rw [enc_done]; omega
    · simp only [h1, if_false]
      rw [enc_done]; omega
  · have := list_eq_nil_of_not_pos pts h0
    subst this
    simp [encTable_nil]

theorem encodeStrip_eq (pts : List PointU) (basePoint maxPoint : PointU) (ds0 : List Delta)
    (hl : pts.length = 0 ∨ 3 ≤ pts.length) :
    EncodeTriangleStrip pts basePoint maxPoint ds0 =
      .ok (ds0 ++ encTable (predStrip basePoint maxPoint) pts) := by
  unfold EncodeTriangleStrip
  by_cases h0 : pts.length > 0
  · have h3 : pts.length > 2 := by omega
    simp only [h0, h3, if_true, not_true_eq_false, if_false]
    have e0 : ds0 ++ [EncodeDelta (pts.getD 0 default) basePoint] =
        ds0 ++ (encTable (predStrip basePoint maxPoint) pts).take 1 := by
      have := enc_step (predStrip basePoint maxPoint) pts ds0 basePoint h0 (by simp [predStrip])
      simpa using this
    rw [e0]
    rw [enc_step (predStrip basePoint maxPoint) pts ds0 _ (show 1 < pts.length by omega)
      (by rw [predStrip_take basePoint maxPoint pts (by omega)]; simp)]
    rw [enc_step (predStrip basePoint maxPoint) pts ds0 _ (show 2 < pts.length by omega)
      (by rw [predStrip_take basePoint maxPoint pts (by omega)]; simp)]
    rw [forLoop_invariant _
      (fun j => ds0 ++ (encTable (predStrip basePoint maxPoint) pts).take j)
      (pts.length - 3) 3]
    · rw [enc_done]; omega
    · intro j h4 h5
      have hj : j < pts.length := by omega
      rw [enc_step (predStrip basePoint maxPoint) pts ds0 _ hj]
      rw [predStrip_take basePoint maxPoint pts (by omega), if_neg (by omega),
        if_neg (by omega)]
  · have := list_eq_nil_of_not_pos pts h0
    subst this
    simp [encTable_nil]

theorem wellFormedPrev3_take (pts : List PointU) (hw : WellFormedPrev3 pts) (m : Nat) :
    WellFormedPrev3 (pts.take m) := by
  intro i h2 h1
  have h3 : i < m := by simp at h2; omega
  have h4 : i < pts.length := by simp at h2; omega
  rw [getD_take pts default (by omega), getD_take pts default (by omega)]
  exact hw i h4 h1

theorem encodePrev1_eq (pts : List PointU) (basePoint maxPoint : PointU)
    (hp : AllInLattice pts) :
    EncodePolylinePrev1 pts basePoint maxPoint [] = .ok (encTable (predPrev1 basePoint) pts) := by
  unfold EncodePolylinePrev1
  rw [encodePrev1_push]
  simp only [TestDecoding, List.nil_append, decodePrev1_eq, length_encTable]
  rw [decodedUpTo_encTable _ pts hp _ (le_refl _), List.take_length]
  simp

theorem encodePrev2_eq (fo : FloatOracle) (pts : List PointU) (basePoint maxPoint : PointU)
    (hp : AllInLattice pts) :
    EncodePolylinePrev2 fo pts basePoint maxPoint [] =
      .ok (encTable (predPrev2 fo basePoint maxPoint) pts) := by
  unfold EncodePolylinePrev2
  rw [encodePrev2_push]
  simp only [TestDecoding, List.nil_append, decodePrev2_eq, length_encTable]
  rw [decodedUpTo_encTable _ pts hp _ (le_refl _), List.take_length]
  simp

theorem encodePrev3_eq (fo : FloatOracle) (pts : List PointU) (basePoint maxPoint : PointU)
    (hx : basePoint.x ≤ maxPoint.x) (hy : basePoint.y ≤ maxPoint.y)
    (hp : AllInLattice pts) (hw : WellFormedPrev3 pts) :
    EncodePolylinePrev3 fo pts basePoint maxPoint [] =
      .ok (encTable (predPrev3 fo basePoint maxPoint) pts) := by
  unfold EncodePolylinePrev3
  simp only [hx, hy, not_true_eq_false, if_false]
  rw [encodePrev3_push fo pts basePoint maxPoint [] hw]
  have hd := decodedUpTo_encTable (predPrev3 fo basePoint maxPoint) pts hp _ (le_refl _)
  rw [List.take_length] at hd
  have := decodePrev3_eq fo (encTable (predPrev3 fo basePoint maxPoint) pts) basePoint maxPoint
    hx hy (by rw [length_encTable, hd]; exact hw)
  rw [length_encTable, hd] at this
  simp only [TestDecoding, List.nil_append, this]
  simp

theorem allInLattice_take (pts : List PointU) (hp : AllInLattice pts) (m : Nat) :
    AllInLattice (pts.take m) :=
  fun a ha => hp a (List.mem_of_mem_take ha)

theorem decodedUpTo_take_deltas (P : List PointU → PointU) (ds : List Delta) {m : Nat}
    (hm : m ≤ ds.length) :
    decodedUpTo P (ds.take m) (ds.take m).length = (decodedUpTo P ds ds.length).take m := by
  rw [List.length_take, Nat.min_eq_left hm, decodedUpTo_take P ds ds.length m hm]
  exact decodedUpTo_congr P _ _ m (fun j hj => getD_take ds default hj)

theorem clamp_le (x xmax : Nat) : clamp x 0 xmax ≤ xmax := by
  unfold clamp
  split_ifs <;> omega

theorem clampPoint_le (maxPoint point : PointU) :
    (ClampPoint maxPoint point).x ≤ maxPoint.x ∧ (ClampPoint maxPoint point).y ≤ maxPoint.y :=
  ⟨clamp_le _ _, clamp_le _ _⟩

theorem forLoop_total {σ ε : Type} (body : Nat → σ → Except ε σ)
    (h : ∀ i s, ∃ s1, body i s = .ok s1) :
    ∀ (k lo : Nat) (s : σ), ∃ s2, forLoop body lo k s = .ok s2
  | 0, lo, s => ⟨s, rfl⟩
  | k + 1, lo, s => by
    obtain ⟨s1, e⟩ := h lo s
    obtain ⟨s2, e2⟩ := forLoop_total body h k (lo + 1) s1
    exact ⟨s2, by simp only [forLoop, e, e2]⟩

theorem forLoop_error_source {σ ε : Type} (body : Nat → σ → Except ε σ) :
    ∀ (k lo : Nat) (s : σ) (e : ε), forLoop body lo k s = .error e →
      ∃ j t, body j t = .error e
  | 0, lo, s, e, h => by simp [forLoop] at h
  | k + 1, lo, s, e, h => by
    simp only [forLoop] at h
    cases hb : body lo s with
    | error err =>
      rw [hb] at h
      cases h
      exact ⟨lo, s, hb⟩
    | ok s1 =>
      rw [hb] at h
      exact forLoop_error_source body k (lo + 1) s1 e h

theorem encodeStrip_error (pts : List PointU) (basePoint maxPoint : PointU) (ds0 : List Delta)
    (hl : pts.length = 1 ∨ pts.length = 2) :
    EncodeTriangleStrip pts basePoint maxPoint ds0 = .error .stripLength := by
  unfold EncodeTriangleStrip
  have h0 : pts.length > 0 := by omega
  have h3 : ¬ pts.length > 2 := by omega
  simp only [h0, h3, if_true, not_false_eq_true]

theorem decodeStrip_total (ds : List Delta) (basePoint maxPoint : PointU) (pts0 : List PointU)
    (hl : ds.length = 0 ∨ 3 ≤ ds.length) :
    ∃ r, DecodeTriangleStrip ds basePoint maxPoint pts0 = .ok r ∧ (ds.length = 0 → r = pts0) := by
  unfold DecodeTriangleStrip
  by_cases h0 : ds.length > 0
  · have h3 : ds.length > 2 := by omega
    simp only [h0, h3, if_true, not_true_eq_false, if_false]
    obtain ⟨r, hr⟩ := forLoop_total
      (fun i (points : List PointU) =>
        (Except.ok (points ++ [DecodeDelta (ds.getD i default)
          (PredictPointInTriangle maxPoint (points.getD (points.length - 1) default)
            (points.getD (points.length - 2) default)
            (points.getD (points.length - 3) default))]) : Except Violation (List PointU)))
      (fun i s => ⟨_, rfl⟩) (ds.length - 3) 3
      (pts0 ++ [DecodeDelta (ds.getD 0 default) basePoint] ++
        [DecodeDelta (ds.getD 1 default) (back (pts0 ++ [DecodeDelta (ds.getD 0 default) basePoint]))] ++
        [DecodeDelta (ds.getD 2 default) (back (pts0 ++ [DecodeDelta (ds.getD 0 default) basePoint] ++
          [DecodeDelta (ds.getD 1 default)
            (back (pts0 ++ [DecodeDelta (ds.getD 0 default) basePoint]))]))])
    exact ⟨r, hr, fun h => by omega⟩
  · simp only [h0, if_false]
    exact ⟨pts0, rfl, fun _ => rfl⟩

theorem encodePrev3_push_ok_wf (fo : FloatOracle) (pts : List PointU)
    (basePoint maxPoint : PointU) (ds0 r : List Delta)
    (h : EncodePolylinePrev3.push fo pts basePoint maxPoint ds0 = .ok r) :
    WellFormedPrev3 pts := by
  by_cases hn : pts.length ≤ 3
  · exact wellFormedPrev3_of_length_le pts hn
  · unfold EncodePolylinePrev3.push at h
    simp only [show pts.length > 0 by omega, show pts.length > 1 by omega,
      show pts.length > 2 by omega, if_true] at h
    have key := forLoop_ok_inv _
      (fun j (_ : List Delta) => ∀ i, i < j → 3 ≤ i →
        pts.getD (i - 2) default ≠ pts.getD (i - 3) default)
      ?_ (pts.length - 3) 3 _ r (fun i h1 h2 => by omega) h
    · intro i h1 h2
      exact key i (by omega) h2
    · intro j s s1 hinv hb i h1 h2
      rcases Nat.lt_or_ge i j with h3 | h3
      · exact hinv i h3 h2
      · have : i = j := by omega
        subst this
        simp only [PredictPointInPolyline3] at hb
        split_ifs at hb with hne
        exact hne

theorem encodePrev3_push_error_kind (fo : FloatOracle) (pts : List PointU)
    (basePoint maxPoint : PointU) (ds0 : List Delta) (e : Violation)
    (h : EncodePolylinePrev3.push fo pts basePoint maxPoint ds0 = .error e) :
    e = .degenerateTriple := by
  by_cases hn : pts.length > 2
  · unfold EncodePolylinePrev3.push at h
    simp only [show pts.length > 0 by omega, show pts.length > 1 by omega, hn, if_true] at h
    obtain ⟨j, t, hb⟩ := forLoop_error_source _ _ _ _ _ h
    simp only [PredictPointInPolyline3] at hb
    split_ifs at hb
    simp only [Except.error.injEq] at hb
    exact hb.symm
  · have hw := wellFormedPrev3_of_length_le pts (by omega)
    rw [encodePrev3_push fo pts basePoint maxPoint ds0 hw] at h
    cases h

theorem encodePrev3_error_of_not_wf (fo : FloatOracle) (pts : List PointU)
    (basePoint maxPoint : PointU) (ds0 : List Delta)
    (hx : basePoint.x ≤ maxPoint.x) (hy : basePoint.y ≤ maxPoint.y)
    (hw : ¬ WellFormedPrev3 pts) :
    EncodePolylinePrev3 fo pts basePoint maxPoint ds0 = .error .degenerateTriple := by
  unfold EncodePolylinePrev3
  simp only [hx, hy, not_true_eq_false, if_false]
  cases hpush : EncodePolylinePrev3.push fo pts basePoint maxPoint ds0 with
  | ok r => exact absurd (encodePrev3_push_ok_wf fo pts basePoint maxPoint ds0 r hpush) hw
  | error e =>
    rw [encodePrev3_push_error_kind fo pts basePoint maxPoint ds0 e hpush]

theorem not_wellFormedPrev3_iff (pts : List PointU) :
    ¬ WellFormedPrev3 pts ↔
      ∃ i, 3 ≤ i ∧ i < pts.length ∧ pts.getD (i - 2) default = pts.getD (i - 3) default := by
  unfold WellFormedPrev3
  constructor
  · intro h
    by_contra hc
    apply h
    intro i h1 h2 h3
    exact hc ⟨i, h2, h1, h3⟩
  · rintro ⟨i, h1, h2, h3⟩ h
    exact h i h2 h1 h3

theorem halfStep_toNat_lt (a b : Nat) (h0 : 0 ≤ halfStep a b) (h1 : halfStep a b < 2 ^ 32) :
    truncToU32 (halfStep a b) = (halfStep a b).toNat := by
  unfold truncToU32
  rw [Int.emod_eq_of_lt h0 h1]

theorem sampleOracle_linearExact : sampleOracle.LinearExact := by
  intro p1 p2 _ _ hx0 hx1 hy0 hy1
  show (⟨truncToU32 (halfStep p1.x p2.x), truncToU32 (halfStep p1.y p2.y)⟩ : PointU) = _
  rw [halfStep_toNat_lt _ _ hx0 hx1, halfStep_toNat_lt _ _ hy0 hy1]

theorem linearExact_step10 (fo : FloatOracle) (h : fo.LinearExact) :
    PredictPointInPolyline fo ⟨1000, 1000⟩ ⟨10, 0⟩ ⟨0, 0⟩ = ⟨15, 0⟩ ∧
    PredictPointInPolyline fo ⟨1000, 1000⟩ ⟨20, 0⟩ ⟨10, 0⟩ = ⟨25, 0⟩ := by
  have e1 := h ⟨10, 0⟩ ⟨0, 0⟩ (by decide) (by decide) (by decide) (by decide) (by decide)
    (by decide)
  have e2 := h ⟨20, 0⟩ ⟨10, 0⟩ (by decide) (by decide) (by decide) (by decide) (by decide)
    (by decide)
  unfold PredictPointInPolyline
  rw [e1, e2]
  constructor <;> decide

end GeoCoding

namespace Simplification

theorem pureLoop_invariant {σ : Type} (body : Nat → σ → σ) (Inv : Nat → σ → Prop) :
    ∀ (k lo : Nat) (s : σ), Inv lo s →
      (∀ j t, lo ≤ j → j < lo + k → Inv j t → Inv (j + 1) (body j t)) →
      Inv (lo + k) (pureLoop body lo k s)
  | 0, lo, s, h, _ => by simpa [pureLoop] using h
  | k + 1, lo, s, h, hstep => by
    have h1 := hstep lo s (le_refl _) (by omega) h
    have := pureLoop_invariant body Inv k (lo + 1) (body lo s) h1
      (fun j t a b c => hstep j t (by omega) (by omega) c)
    have e : lo + (k + 1) = lo + 1 + k := by omega
    rw [e]
    simpa [pureLoop] using this

section MaxDistance

variable {P D : Type} [LinearOrder D] [Zero D] (dist : P → P → P → D) (p : Nat → P)

theorem maxDistance_short {first last : Nat} (h : last ≤ first + 1) :
    impl.MaxDistance dist p first last = (0, last) := by
  unfold impl.MaxDistance
  have : (last : Int) - first ≤ 1 := by omega
  simp [this]

theorem maxDistance_spec (first last : Nat) :
    (0 : D) ≤ (impl.MaxDistance dist p first last).1 ∧
    (∀ m, first < m → m < last →
      dist (p first) (p last) (p m) ≤ (impl.MaxDistance dist p first last).1) ∧
    (((impl.MaxDistance dist p first last).2 = last ∧
        (impl.MaxDistance dist p first last).1 = 0) ∨
      (first < (impl.MaxDistance dist p first last).2 ∧
        (impl.MaxDistance dist p first last).2 < last ∧
        (impl.MaxDistance dist p first last).1 =
          dist (p first) (p last) (p (impl.MaxDistance dist p first last).2))) := by
  by_cases h : last ≤ first + 1
  · rw [maxDistance_short dist p h]
    exact ⟨le_refl _, fun m h1 h2 => by omega, Or.inl ⟨rfl, rfl⟩⟩
  · unfold impl.MaxDistance
    have h1 : ¬ ((last : Int) - first ≤ 1) := by omega
    simp only [h1, if_false]
    have key := pureLoop_invariant
      (fun i (res : D × Nat) =>
        if dist (p first) (p last) (p i) > res.1 then (dist (p first) (p last) (p i), i) else res)
      (fun i res => (0 : D) ≤ res.1 ∧
        (∀ m, first < m → m < i → dist (p first) (p last) (p m) ≤ res.1) ∧
        ((res.2 = last ∧ res.1 = 0) ∨
          (first < res.2 ∧ res.2 < i ∧ res.1 = dist (p first) (p last) (p res.2))))
      (last - (first + 1)) (first + 1) (0, last)
      ⟨le_refl _, fun m a b => by omega, Or.inl ⟨rfl, rfl⟩⟩ ?_
    · have e : first + 1 + (last - (first + 1)) = last := by omega
      rw [e] at key
      exact key
    · rintro j ⟨d, i⟩ hj1 hj2 ⟨a, b, c⟩
      by_cases hd : dist (p first) (p last) (p j) > d
      · simp only [hd, if_true]
        refine ⟨le_of_lt (lt_of_le_of_lt a hd), ?_, Or.inr ⟨by omega, by omega, trivial⟩⟩
        intro m m1 m2
        rcases Nat.lt_or_ge m j with m3 | m3
        · exact le_trans (b m m1 m3) (le_of_lt hd)
        · have : m = j := by omega
          subst this; exact le_refl _
      · simp only [hd, if_false]
        refine ⟨a, ?_, ?_⟩
        · intro m m1 m2
          rcases Nat.lt_or_ge m j with m3 | m3
          · exact b m m1 m3
          · have : m = j := by omega
            subst this; exact not_lt.mp hd
        · rcases c with c | c
          · exact Or.inl c
          · exact Or.inr ⟨c.1, by omega, c.2.2⟩

/-- All points strictly between the iterators `i` and `j` are closer than `epsilon`
to the segment from `p i` to `p j`. -/
theorem hop_of_maxDistance {first last : Nat} {epsilon : D} (heps : 0 < epsilon)
    (h : (impl.MaxDistance dist p first last).2 = last ∨
      (impl.MaxDistance dist p first last).1 < epsilon) :
    ∀ m, first < m → m < last → dist (p first) (p last) (p m) < epsilon := by
  obtain ⟨_, h2, h3⟩ := maxDistance_spec dist p first last
  have hlt : (impl.MaxDistance dist p first last).1 < epsilon := by
    rcases h with h | h
    · rcases h3 with h3 | h3
      · rw [h3.2]; exact heps
      · omega
    · exact h
  intro m m1 m2
  exact lt_of_le_of_lt (h2 m m1 m2) hlt

theorem maxDistance_of_hop {first last : Nat} {epsilon : D} (heps : 0 < epsilon)
    (h : ∀ m, first < m → m < last → dist (p first) (p last) (p m) < epsilon) :
    (impl.MaxDistance dist p first last).1 < epsilon := by
  obtain ⟨_, _, h3⟩ := maxDistance_spec dist p first last
  rcases h3 with h3 | h3
  · rw [h3.2]; exact heps
  · rw [h3.2.2]; exact h _ h3.1 h3.2.1

end MaxDistance

section DouglasPeucker

variable {P D : Type} [LinearOrder D] [Zero D] (dist : P → P → P → D) (p : Nat → P)

theorem chain'_join {R : Nat → Nat → Prop} {a m : Nat} {l1 l2 : List Nat}
    (h1 : List.Chain' R (a :: l1)) (hl : (a :: l1).getLast? = some m)
    (h2 : List.Chain' R (m :: l2)) : List.Chain' R (a :: (l1 ++ l2)) := by
  have : a :: (l1 ++ l2) = (a :: l1) ++ l2 := rfl
  rw [this, List.chain'_append]
  refine ⟨h1, h2.tail, ?_⟩
  intro x hx y hy
  rw [hl] at hx
  cases hx
  cases l2 with
  | nil => simp at hy
  | cons b l2 =>
    simp at hy
    subst hy
    exact (List.chain'_cons.mp h2).1

theorem getLast?_join {a m last : Nat} {l1 l2 : List Nat}
    (h2 : (m :: l2).getLast? = some last) (hne : l2 ≠ []) :
    (a :: (l1 ++ l2)).getLast? = some last := by
  have : a :: (l1 ++ l2) = (a :: l1) ++ l2 := rfl
  rw [this, List.getLast?_append_of_ne_nil _ hne]
  cases l2 with
  | nil => exact absurd rfl hne
  | cons b l2 => rwa [List.getLast?_cons_cons] at h2

end DouglasPeucker

section DouglasPeucker

variable {P D : Type} [LinearOrder D] [Zero D] (dist : P → P → P → D) (p : Nat → P)

theorem impl_simplifyDP_spec {epsilon : D} (heps : 0 < epsilon) :
    ∀ (fuel first last : Nat) (out : List Nat), first ≤ last → last - first < fuel →
      ∃ l, impl.SimplifyDP dist p epsilon fuel first last out = some (out ++ l) ∧ l ≠ [] ∧
        (first :: l).getLast? = some last ∧
        List.Chain' (Hop dist p epsilon) (first :: l) ∧
        (first < last → List.Chain' (· < ·) (first :: l))
  | 0, first, last, out, _, h2 => by omega
  | fuel + 1, first, last, out, h1, h2 => by
    unfold impl.SimplifyDP
    by_cases hc : (impl.MaxDistance dist p first last).2 = last ∨
        (impl.MaxDistance dist p first last).1 < epsilon
    · simp only [hc, if_true]
      refine ⟨[last], rfl, by simp, by simp, ?_, ?_⟩
      · simp only [List.chain'_cons, List.chain'_singleton, and_true]
        exact hop_of_maxDistance dist p heps hc
      · intro hlt
        simp only [List.chain'_cons, List.chain'_singleton, and_true]
        exact hlt
    · simp only [hc, if_false]
      obtain ⟨_, _, h3⟩ := maxDistance_spec dist p first last
      rcases h3 with h3 | h3
      · exact absurd (Or.inl h3.1) hc
      · obtain ⟨m1, m2, _⟩ := h3
        obtain ⟨l1, e1, n1, g1, c1, s1⟩ := impl_simplifyDP_spec heps fuel first
          (impl.MaxDistance dist p first last).2 out (by omega) (by omega)
        obtain ⟨l2, e2, n2, g2, c2, s2⟩ := impl_simplifyDP_spec heps fuel
          (impl.MaxDistance dist p first last).2 last (out ++ l1) (by omega) (by omega)
        refine ⟨l1 ++ l2, ?_, by simp [n2], getLast?_join g2 n2, chain'_join c1 g1 c2, ?_⟩
        · simp only [e1, e2, List.append_assoc]
        · intro _
          exact chain'_join (s1 m1) g1 (s2 m2)

theorem simplifyDP_spec {epsilon : D} (heps : 0 < epsilon) (first last : Nat)
    (hne : first < last) :
    ∃ idx, SimplifyDP dist p first last epsilon = some idx ∧ idx.head? = some first ∧
      idx.getLast? = some (last - 1) ∧ 2 ≤ idx.length ∧
      List.Chain' (Hop dist p epsilon) idx ∧
      (first < last - 1 → List.Chain' (· < ·) idx) := by
  unfold SimplifyDP
  simp only [ne_eq, show ¬ first = last by omega, not_false_eq_true, if_true]
  obtain ⟨l, e, n, g, c, s⟩ := impl_simplifyDP_spec dist p heps (last - first + 1) first
    (last - 1) [first] (by omega) (by omega)
  refine ⟨first :: l, by simpa using e, rfl, g, ?_, c, s⟩
  cases l with
  | nil => exact absurd rfl n
  | cons a l => simp

end DouglasPeucker

theorem getD_set_self {α : Type} (l : List α) (a d : α) {i : Nat} (h : i < l.length) :
    (l.set i a).getD i d = a := by
  simp [List.getD_eq_getElem?_getD, List.getElem?_set_self, h]

theorem getD_set_ne {α : Type} (l : List α) (a d : α) {i j : Nat} (h : i ≠ j) :
    (l.set i a).getD j d = l.getD j d := by
  simp [List.getD_eq_getElem?_getD, List.getElem?_set_ne h]

theorem toInt32_of_lt {v : Int} (h0 : 0 ≤ v) (h1 : v < 2 ^ 31) : toInt32 v = v := by
  unfold toInt32
  norm_num at h1 ⊢
  omega

section NearOptimal

variable {P D : Type} [LinearOrder D] [Zero D] (dist : P → P → P → D) (p : Nat → P)
  (k : Int) (first : Nat) (epsilon : D)

theorem maxDistance_adjacent (heps : 0 < epsilon) (a : Nat) :
    (impl.MaxDistance dist p a (a + 1)).1 < epsilon := by
  rw [maxDistance_short dist p (le_refl _)]
  exact heps

theorem scan_inv (N i : Nat) (F : List impl.SimplifyOptimalRes) (hk : 1 ≤ k)
    (heps : 0 < epsilon) (hN : N < 2 ^ 31) (hi : i + 1 < N)
    (hcnt : ∀ t, i < t → t < N → 1 ≤ cnt F t ∧ cnt F t ≤ N - t) :
    ∀ (steps j : Nat) (fc : Int) (G : List impl.SimplifyOptimalRes), j + steps = N → i < j →
      G.length = N → (∀ t, t ≠ i → G.getD t default = F.getD t default) →
      ((j = i + 1 ∧ fc = 0 ∧ cnt G i = 2 ^ 32 - 1) ∨
        (∃ j1 : Nat, nxt G i = (j1 : Int) ∧ i < j1 ∧ j1 < j ∧ cnt G i = cnt F j1 + 1 ∧
          (impl.MaxDistance dist p (first + i) (first + j1)).1 < epsilon)) →
      ((N : Int) ≤ k → fc ≤ (j : Int) - (i + 1) ∧ ∀ t, i < t → t < j →
        (impl.MaxDistance dist p (first + i) (first + t)).1 < epsilon →
          cnt G i ≤ cnt F t + 1) →
      (SimplifyNearOptimal.scan dist p k first epsilon i steps j fc G).length = N ∧
      (∀ t, t ≠ i → (SimplifyNearOptimal.scan dist p k first epsilon i steps j fc G).getD t
        default = F.getD t default) ∧
      (∃ j1 : Nat, nxt (SimplifyNearOptimal.scan dist p k first epsilon i steps j fc G) i =
          (j1 : Int) ∧ i < j1 ∧ j1 < N ∧
        cnt (SimplifyNearOptimal.scan dist p k first epsilon i steps j fc G) i = cnt F j1 + 1 ∧
        (impl.MaxDistance dist p (first + i) (first + j1)).1 < epsilon) ∧
      ((N : Int) ≤ k → ∀ t, i < t → t < N →
        (impl.MaxDistance dist p (first + i) (first + t)).1 < epsilon →
          cnt (SimplifyNearOptimal.scan dist p k first epsilon i steps j fc G) i ≤
            cnt F t + 1)
  | 0, j, fc, G, hj, hij, hlen, hsame, hA, hB => by
    have hjN : j = N := by omega
    subst hjN
    simp only [SimplifyNearOptimal.scan]
    refine ⟨hlen, hsame, ?_, fun h => (hB h).2⟩
    rcases hA with hA | hA
    · omega
    · exact hA
  | steps + 1, j, fc, G, hj, hij, hlen, hsame, hA, hB => by
    have hjN : j < N := by omega
    have hGj : cnt G j = cnt F j := by
      unfold cnt; rw [hsame j (by omega)]
    have hFj := hcnt j hij hjN
    have hnpc : (cnt G j + 1) % 2 ^ 32 = cnt F j + 1 := by
      rw [hGj]
      apply Nat.mod_eq_of_lt
      have : N < 2 ^ 32 := lt_trans hN (by norm_num)
      omega
    unfold SimplifyNearOptimal.scan
    by_cases hfc : fc < k
    · simp only [hfc, if_true]
      have hnpc2 : ((G.getD j default).m_PointCount + 1) % 2 ^ 32 = cnt F j + 1 := hnpc
      rw [hnpc2]
      by_cases h1 : cnt F j + 1 < (G.getD i default).m_PointCount
      · simp only [h1, if_true]
        by_cases hv : (impl.MaxDistance dist p (first + i) (first + j)).1 < epsilon
        · simp only [hv, if_true]
          apply scan_inv N i F hk heps hN hi hcnt steps (j + 1) fc _ (by omega) (by omega)
            (by simp [hlen])
          · intro t ht
            rw [getD_set_ne _ _ _ (Ne.symm ht)]
            exact hsame t ht
          · right
            refine ⟨j, ?_, hij, by omega, ?_, hv⟩
            · unfold nxt; rw [getD_set_self _ _ _ (by omega)]
            · unfold cnt; rw [getD_set_self _ _ _ (by omega)]
          · intro hNk
            obtain ⟨b1, b2⟩ := hB hNk
            refine ⟨by omega, ?_⟩
            intro t t1 t2 tv
            have e : cnt (G.set i ⟨(j : Int), cnt F j + 1⟩) i = cnt F j + 1 := by
              unfold cnt; rw [getD_set_self _ _ _ (by omega)]
            rw [e]
            rcases Nat.lt_or_ge t j with t3 | t3
            · have := b2 t t1 t3 tv
              have h1' : cnt F j + 1 < cnt G i := h1
              omega
            · have : t = j := by omega
              subst this; exact le_refl _
        · simp only [hv, if_false]
          have hne : j ≠ i + 1 := by
            intro e
            subst e
            exact hv (maxDistance_adjacent dist p epsilon heps (first + i))
          apply scan_inv N i F hk heps hN hi hcnt steps (j + 1) (fc + 1) G (by omega) (by omega)
            hlen hsame
          · right
            rcases hA with hA | ⟨j1, a1, a2, a3, a4⟩
            · exact absurd hA.1 hne
            · exact ⟨j1, a1, a2, by omega, a4⟩
          · intro hNk
            obtain ⟨b1, b2⟩ := hB hNk
            refine ⟨by push_cast; omega, ?_⟩
            intro t t1 t2 tv
            rcases Nat.lt_or_ge t j with t3 | t3
            · exact b2 t t1 t3 tv
            · have : t = j := by omega
              subst this; exact absurd tv hv
      · simp only [h1, if_false]
        have h1' : ¬ cnt F j + 1 < cnt G i := h1
        apply scan_inv N i F hk heps hN hi hcnt steps (j + 1) fc G (by omega) (by omega)
          hlen hsame
        · right
          rcases hA with hA | ⟨j1, a1, a2, a3, a4⟩
          · have : N < 2 ^ 32 - 1 := lt_trans hN (by norm_num)
            omega
          · exact ⟨j1, a1, a2, by omega, a4⟩
        · intro hNk
          obtain ⟨b1, b2⟩ := hB hNk
          refine ⟨by push_cast; omega, ?_⟩
          intro t t1 t2 tv
          rcases Nat.lt_or_ge t j with t3 | t3
          · exact b2 t t1 t3 tv
          · have : t = j := by omega
            subst this; omega
    · simp only [hfc, if_false]
      refine ⟨hlen, hsame, ?_, ?_⟩
      · rcases hA with hA | ⟨j1, a1, a2, a3, a4⟩
        · omega
        · exact ⟨j1, a1, a2, by omega, a4⟩
      · intro hNk
        have := (hB hNk).1
        omega

end NearOptimal

section NearOptimal

variable {P D : Type} [LinearOrder D] [Zero D] (dist : P → P → P → D) (p : Nat → P)
  (k : Int) (first : Nat) (epsilon : D)

theorem fill_spec (N : Nat) (hk : 1 ≤ k) (heps : 0 < epsilon) (hN : N < 2 ^ 31) :
    ∀ (c : Nat) (F : List impl.SimplifyOptimalRes), c + 1 ≤ N →
      TableInv dist p k first epsilon N c F →
      TableInv dist p k first epsilon N 0
        (SimplifyNearOptimal.fill dist p k first epsilon N c F)
  | 0, F, _, h => by simpa [SimplifyNearOptimal.fill] using h
  | c + 1, F, hc, h => by
    obtain ⟨h1, h2, h3, h4, h5, h6⟩ := h
    unfold SimplifyNearOptimal.fill
    apply fill_spec N hk heps hN c _ (by omega)
    obtain ⟨g1, g2, ⟨j1, g3, g4, g5, g6, g7⟩, g8⟩ :=
      scan_inv dist p k first epsilon N c F hk heps hN (by omega)
        (fun t t1 t2 => h4 t (by omega) t2) (N - (c + 1)) (c + 1) 0 F (by omega) (by omega) h1
        (fun t _ => rfl) (Or.inl ⟨rfl, rfl, h3 c (by omega)⟩)
        (fun _ => ⟨by push_cast; omega, fun t t1 t2 => by omega⟩)
    have hsame : ∀ t, t ≠ c →
        cnt (SimplifyNearOptimal.scan dist p k first epsilon c (N - (c + 1)) (c + 1) 0 F) t =
          cnt F t := by
      intro t ht; unfold cnt; rw [g2 t ht]
    have hsamen : ∀ t, t ≠ c →
        nxt (SimplifyNearOptimal.scan dist p k first epsilon c (N - (c + 1)) (c + 1) 0 F) t =
          nxt F t := by
      intro t ht; unfold nxt; rw [g2 t ht]
    refine ⟨g1, ?_, ?_, ?_, ?_, ?_⟩
    · rw [hsame _ (by omega)]; exact h2
    · intro t ht
      rw [hsame _ (by omega)]; exact h3 t (by omega)
    · intro t t1 t2
      rcases Nat.lt_or_ge c t with t3 | t3
      · rw [hsame _ (by omega)]; exact h4 t (by omega) t2
      · have : t = c := by omega
        subst this
        rw [g6]
        have := h4 j1 (by omega) g5
        omega
    · intro i i1 i2
      rcases Nat.lt_or_ge c i with i3 | i3
      · obtain ⟨j2, a1, a2, a3, a4, a5⟩ := h5 i (by omega) i2
        refine ⟨j2, ?_, a2, a3, ?_, a5⟩
        · rw [hsamen _ (by omega)]; exact a1
        · rw [hsame _ (by omega), hsame _ (by omega)]; exact a4
      · have : i = c := by omega
        subst this
        refine ⟨j1, g3, g4, g5, ?_, g7⟩
        rw [hsame j1 (by omega)]; exact g6
    · intro hNk i i1 i2 t t1 t2 tv
      rcases Nat.lt_or_ge c i with i3 | i3
      · rw [hsame _ (by omega), hsame _ (by omega)]
        exact h6 hNk i (by omega) i2 t t1 t2 tv
      · have : i = c := by omega
        subst this
        rw [hsame t (by omega)]
        exact g8 hNk t t1 t2 tv

theorem tableInv_init (junk : Int) (N : Nat) (hN : 3 ≤ N) :
    TableInv dist p k first epsilon N (N - 1)
      ((List.replicate N (⟨junk, 2 ^ 32 - 1⟩ : impl.SimplifyOptimalRes)).set (N - 1)
        ⟨(N : Int), 1⟩) := by
  refine ⟨by simp, ?_, ?_, ?_, ?_, ?_⟩
  · unfold cnt; rw [getD_set_self _ _ _ (by simp; omega)]
  · intro t ht
    unfold cnt
    rw [getD_set_ne _ _ _ (by omega)]
    simp [List.getD_eq_getElem?_getD, List.getElem?_replicate, show t < N by omega]
  · intro t t1 t2
    have : t = N - 1 := by omega
    subst this
    unfold cnt; rw [getD_set_self _ _ _ (by simp; omega)]
    simp only
    omega
  · intro i i1 i2; omega
  · intro _ i i1 i2; omega

end NearOptimal

section NearOptimal

variable {P D : Type} [LinearOrder D] [Zero D] (dist : P → P → P → D) (p : Nat → P)
  (k : Int) (first : Nat) (epsilon : D)

theorem walk_spec (N : Nat) (F : List impl.SimplifyOptimalRes) (heps : 0 < epsilon)
    (hF : TableInv dist p k first epsilon N 0 F) (hN : 1 ≤ N) :
    ∀ (fuel i : Nat) (out : List Nat), i < N → N - i ≤ fuel →
      ∃ l, SimplifyNearOptimal.walk F first (N : Int) fuel (i : Int) out = some (out ++ l) ∧
        l.length + 1 = cnt F i ∧ (∀ x, x ∈ l → x < first + (N - 1)) ∧
        ValidChain dist p epsilon (first + i) (first + (N - 1)) (l ++ [first + (N - 1)])
  | 0, i, out, h1, h2 => by omega
  | fuel + 1, i, out, h1, h2 => by
    obtain ⟨f1, f2, f3, f4, f5, f6⟩ := hF
    unfold SimplifyNearOptimal.walk
    by_cases hi : i + 1 < N
    · have c1 : (i : Int) < (N : Int) - 1 := by omega
      have c2 : ¬ ((i : Int) < 0) := by omega
      simp only [c1, c2, if_true, if_false, Int.toNat_ofNat]
      obtain ⟨j1, a1, a2, a3, a4, a5⟩ := f5 i (Nat.zero_le _) hi
      have a1' : (F.getD i default).m_NextPoint = (j1 : Int) := a1
      rw [a1']
      obtain ⟨l, e, hl, hx, v1, v2, v3, v4⟩ :=
        walk_spec N F heps ⟨f1, f2, f3, f4, f5, f6⟩ hN fuel j1 (out ++ [first + i]) a3 (by omega)
      refine ⟨(first + i) :: l, by simp [e], by simp; omega, ?_, rfl, ?_, ?_, ?_⟩
      · intro x hx1
        rcases List.mem_cons.mp hx1 with hx2 | hx2
        · omega
        · exact hx x hx2
      · rw [List.cons_append, List.getLast?_cons, v2]
        rfl
      · rw [List.cons_append, List.chain'_cons']
        refine ⟨?_, v3⟩
        intro y hy
        rw [v1] at hy
        cases hy
        omega
      · rw [List.cons_append, List.chain'_cons']
        refine ⟨?_, v4⟩
        intro y hy
        rw [v1] at hy
        cases hy
        exact hop_of_maxDistance dist p heps (Or.inr a5)
    · have hiN : i = N - 1 := by omega
      have c1 : ¬ ((i : Int) < (N : Int) - 1) := by omega
      simp only [c1, if_false]
      refine ⟨[], by simp, ?_, by simp, ?_⟩
      · rw [hiN, f2]; rfl
      · subst hiN
        exact ⟨rfl, rfl, by simp, by simp⟩

end NearOptimal

theorem chain_head_le_last : ∀ (l : List Nat) (a L : Nat), List.Chain' (· < ·) (a :: l) →
    (a :: l).getLast? = some L → a ≤ L
  | [], a, L, _, h => by
    simp at h; omega
  | b :: l, a, L, hc, h => by
    rw [List.getLast?_cons_cons] at h
    have h1 := chain_head_le_last l b L hc.tail h
    have h2 : a < b := (List.chain'_cons.mp hc).1
    omega

section NearOptimal

variable {P D : Type} [LinearOrder D] [Zero D] (dist : P → P → P → D) (p : Nat → P)
  (k : Int) (first : Nat) (epsilon : D)

theorem chain_opt (N : Nat) (F : List impl.SimplifyOptimalRes) (heps : 0 < epsilon)
    (hF : TableInv dist p k first epsilon N 0 F) (hNk : (N : Int) ≤ k) :
    ∀ (c : List Nat) (i : Nat), i < N →
      ValidChain dist p epsilon (first + i) (first + (N - 1)) c → cnt F i ≤ c.length
  | [], i, _, h => by
    have := h.1
    simp at this
  | [a], i, hi, h => by
    obtain ⟨h1, h2, _, _⟩ := h
    simp at h1 h2
    have : i = N - 1 := by omega
    subst this
    rw [hF.2.1]
    simp
  | a :: b :: rest, i, hi, h => by
    obtain ⟨h1, h2, h3, h4⟩ := h
    simp only [List.head?_cons, Option.some.injEq] at h1
    subst h1
    rw [List.getLast?_cons_cons] at h2
    have hab : first + i < b := (List.chain'_cons.mp h3).1
    have hhop : Hop dist p epsilon (first + i) b := (List.chain'_cons.mp h4).1
    have hbL := chain_head_le_last rest b _ h3.tail h2
    have hb : b = first + (b - first) := by omega
    have ih := chain_opt N F heps hF hNk (b :: rest) (b - first) (by omega)
      ⟨by rw [← hb]; rfl, h2, h3.tail, h4.tail⟩
    rw [hb] at hhop
    have hv := maxDistance_of_hop dist p heps hhop
    have := hF.2.2.2.2.2 hNk i (Nat.zero_le _) (by omega) (b - first) (by omega) (by omega) hv
    simp only [List.length_cons] at ih ⊢
    omega

theorem nearOptimal_spec (junk : Int) (last : Nat) (hk : 1 ≤ k) (heps : 0 < epsilon)
    (h3 : first + 2 ≤ last) (h32 : last - first + 1 < 2 ^ 31) :
    ∃ idx, SimplifyNearOptimal dist p junk k first last epsilon = some idx ∧
      (∀ x, x ∈ idx → x < last) ∧
      ValidChain dist p epsilon first last (idx ++ [last]) ∧
      (((last - first + 1 : Nat) : Int) ≤ k → ∀ c, ValidChain dist p epsilon first last c →
        idx.length + 1 ≤ c.length) := by
  have hn : toInt32 ((last : Int) - first + 1) = ((last - first + 1 : Nat) : Int) := by
    rw [toInt32_of_lt (by omega) (by
      have : ((last - first + 1 : Nat) : Int) < 2 ^ 31 := by exact_mod_cast h32
      omega)]
    omega
  generalize hNdef : last - first + 1 = N at hn h32
  have hc : ¬ ((N : Int) ≤ 2) := by omega
  unfold SimplifyNearOptimal
  simp only [hn, hc, if_false, Int.toNat_ofNat]
  have hF := fill_spec dist p k first epsilon N hk heps h32 (N - 1) _ (by omega)
    (tableInv_init dist p k first epsilon junk N (by omega))
  obtain ⟨l, e, hl, hx, hv⟩ := walk_spec dist p k first epsilon N _ heps hF (by omega) N 0 []
    (by omega) (by omega)
  have e1 : first + (N - 1) = last := by omega
  rw [e1] at hx hv
  refine ⟨l, by simpa using e, hx, by simpa using hv, ?_⟩
  intro hNk c hcv
  have := chain_opt dist p k first epsilon N _ heps hF hNk c 0 (by omega)
    (by rw [e1]; simpa using hcv)
  omega

theorem nearOptimal_small (junk : Int) (last : Nat) (h1 : first ≤ last)
    (h2 : last ≤ first + 1) :
    SimplifyNearOptimal dist p junk k first last epsilon = some [first] := by
  unfold SimplifyNearOptimal toInt32
  have hc : ((last : Int) - first + 1 + 2 ^ 31) % 2 ^ 32 - 2 ^ 31 ≤ 2 := by
    norm_num
    omega
  simp only [hc, if_true]

end NearOptimal

theorem chain_mem_le_last (c : List Nat) (L x : Nat) (hc : List.Chain' (· < ·) c)
    (hl : c.getLast? = some L) (hx : x ∈ c) : x ≤ L := by
  obtain ⟨s, t, e⟩ := List.append_of_mem hx
  subst e
  rw [List.getLast?_append_of_ne_nil _ (by simp)] at hl
  exact chain_head_le_last t x L (List.chain'_append.mp hc).2.1 hl

theorem chain_head_le_mem (c : List Nat) (a x : Nat) (hc : List.Chain' (· < ·) c)
    (hh : c.head? = some a) (hx : x ∈ c) : a ≤ x := by
  cases c with
  | nil => simp at hx
  | cons b t =>
    simp only [List.head?_cons, Option.some.injEq] at hh
    subst hh
    have hp : List.Pairwise (· < ·) (b :: t) := List.chain'_iff_pairwise.mp hc
    rcases List.mem_cons.mp hx with h | h
    · omega
    · exact le_of_lt (List.rel_of_pairwise_cons hp h)

theorem increasing_sublist_range (c : List Nat) (first last : Nat)
    (hc : List.Chain' (· < ·) c) (hh : c.head? = some first) (hl : c.getLast? = some last) :
    c.Sublist (List.range' first (last - first + 1)) := by
  have hp : List.Pairwise (· < ·) c := List.chain'_iff_pairwise.mp hc
  apply List.sublist_of_subperm_of_sorted (r := (· < ·)) _ hp (List.pairwise_lt_range' _ _)
  apply List.subperm_of_subset hp.nodup
  intro x hx
  have h1 := chain_mem_le_last c last x hc hl hx
  have h2 := chain_head_le_mem c first x hc hh hx
  rw [List.mem_range'_1]
  omega

theorem validChain_length_two {P D : Type} [LinearOrder D] (dist : P → P → P → D)
    (p : Nat → P) (first : Nat) (epsilon : D) {last : Nat} (h : first < last) (c : List Nat)
    (hc : ValidChain dist p epsilon first last c) : 2 ≤ c.length := by
  obtain ⟨h1, h2, _, _⟩ := hc
  cases c with
  | nil => simp at h1
  | cons a t =>
    cases t with
    | nil =>
      simp at h1 h2
      omega
    | cons b t => simp

section NearOptimal

variable {P D : Type} [LinearOrder D] [Zero D] (dist : P → P → P → D) (p : Nat → P)
  (k : Int) (first : Nat) (epsilon : D)

theorem nearOptimal_summary (junk : Int) (last : Nat) (hk : 1 ≤ k) (heps : 0 < epsilon)
    (h2 : first < last) (h32 : last - first + 1 < 2 ^ 31) :
    ∃ idx, SimplifyNearOptimal dist p junk k first last epsilon = some idx ∧
      (∀ x, x ∈ idx → x < last) ∧
      ValidChain dist p epsilon first last (idx ++ [last]) ∧
      (((last - first + 1 : Nat) : Int) ≤ k → ∀ c, ValidChain dist p epsilon first last c →
        idx.length + 1 ≤ c.length) := by
  by_cases h3 : first + 2 ≤ last
  · exact nearOptimal_spec dist p k first epsilon junk last hk heps h3 h32
  · have hl : last = first + 1 := by omega
    refine ⟨[first], nearOptimal_small dist p k first epsilon junk last (by omega) (by omega),
      by simp [hl], ⟨rfl, rfl, by simp [hl], ?_⟩, ?_⟩
    · simp only [List.singleton_append, List.chain'_cons, List.chain'_singleton, and_true]
      intro m m1 m2
      omega
    · intro _ c hc
      exact validChain_length_two dist p first epsilon h2 c hc

end NearOptimal

section Filter

variable {P D : Type} [LinearOrder D] [Inhabited P] (dist : P → P → P → D) (eps : D)

theorem popLoop_spec (q : P) : ∀ (fuel : Nat) (v : List P), v.length ≤ fuel →
    (∃ m, AccumulateSkipSmallTrg.popLoop dist eps q fuel v = v.take m) ∧
    ((AccumulateSkipSmallTrg.popLoop dist eps q fuel v).length < 2 ∨
      ¬ (dist ((AccumulateSkipSmallTrg.popLoop dist eps q fuel v).getD
            ((AccumulateSkipSmallTrg.popLoop dist eps q fuel v).length - 2) default) q
          ((AccumulateSkipSmallTrg.popLoop dist eps q fuel v).getD
            ((AccumulateSkipSmallTrg.popLoop dist eps q fuel v).length - 1) default) < eps))
  | 0, v, h => by
    have : v = [] := List.eq_nil_of_length_eq_zero (by omega)
    subst this
    exact ⟨⟨0, rfl⟩, Or.inl (by simp [AccumulateSkipSmallTrg.popLoop])⟩
  | fuel + 1, v, h => by
    unfold AccumulateSkipSmallTrg.popLoop
    by_cases h2 : v.length ≥ 2
    · simp only [h2, if_true]
      by_cases hd : dist (v.getD (v.length - 2) default) q (v.getD (v.length - 1) default) < eps
      · simp only [hd, if_true]
        obtain ⟨⟨m, e⟩, r⟩ := popLoop_spec q fuel v.dropLast (by simp; omega)
        refine ⟨⟨min m (v.length - 1), ?_⟩, r⟩
        rw [e, List.dropLast_eq_take, List.take_take]
      · simp only [hd, if_false]
        exact ⟨⟨v.length, (List.take_length v).symm⟩, Or.inr not_false⟩
    · simp only [h2, if_false]
      exact ⟨⟨v.length, (List.take_length v).symm⟩, Or.inl (by omega)⟩

theorem noSmallTrg_take (v : List P) (h : NoSmallTrg dist eps v) (m : Nat) :
    NoSmallTrg dist eps (v.take m) := by
  intro i hi
  have h1 : i + 2 < m := by simp at hi; omega
  have h2 : i + 2 < v.length := by simp at hi; omega
  rw [GeoCoding.getD_take v default (by omega), GeoCoding.getD_take v default h1,
    GeoCoding.getD_take v default (by omega)]
  exact h i h2

theorem noSmallTrg_call (v : List P) (q : P) (h : NoSmallTrg dist eps v) :
    NoSmallTrg dist eps (AccumulateSkipSmallTrg.call dist eps v q) := by
  unfold AccumulateSkipSmallTrg.call
  obtain ⟨⟨m, e⟩, r⟩ := popLoop_spec dist eps q v.length v (le_refl _)
  have hr : NoSmallTrg dist eps (AccumulateSkipSmallTrg.popLoop dist eps q v.length v) := by
    rw [e]; exact noSmallTrg_take dist eps v h m
  generalize AccumulateSkipSmallTrg.popLoop dist eps q v.length v = w at r hr
  intro i hi
  simp only [List.length_append, List.length_singleton] at hi
  rcases Nat.lt_or_ge (i + 2) w.length with h1 | h1
  · rw [GeoCoding.getD_append_lt w q default (by omega),
      GeoCoding.getD_append_lt w q default h1,
      GeoCoding.getD_append_lt w q default (by omega)]
    exact hr i h1
  · have h2 : i + 2 = w.length := by omega
    rw [GeoCoding.getD_append_lt w q default (by omega), h2,
      GeoCoding.getD_append_last w q default,
      GeoCoding.getD_append_lt w q default (by omega)]
    rcases r with r | r
    · omega
    · have e1 : w.length - 2 = i := by omega
      have e2 : w.length - 1 = i + 1 := by omega
      rw [e1, e2] at r
      exact r

theorem noSmallTrg_feed : ∀ (points v : List P), NoSmallTrg dist eps v →
    NoSmallTrg dist eps (AccumulateSkipSmallTrg.feed dist eps v points)
  | [], v, h => h
  | q :: points, v, h => by
    have := noSmallTrg_feed points _ (noSmallTrg_call dist eps v q h)
    simpa [AccumulateSkipSmallTrg.feed] using this

end Filter

theorem head?_take_pos {α : Type} (v : List α) {m : Nat} (hm : 1 ≤ m) :
    (v.take m).head? = v.head? := by
  cases v with
  | nil => simp
  | cons a t =>
    cases m with
    | zero => omega
    | succ m => simp

section DouglasPeuckerShape

variable {P D : Type} [LinearOrder D] [Zero D] (dist : P → P → P → D) (p : Nat → P)

theorem impl_simplifyDP_shape (epsilon : D) :
    ∀ (fuel first last : Nat) (out : List Nat), first ≤ last → last - first < fuel →
      ∃ l, impl.SimplifyDP dist p epsilon fuel first last out = some (out ++ l) ∧ l ≠ [] ∧
        (first :: l).getLast? = some last ∧
        (first < last → List.Chain' (· < ·) (first :: l))
  | 0, first, last, out, _, h2 => by omega
  | fuel + 1, first, last, out, h1, h2 => by
    unfold impl.SimplifyDP
    by_cases hc : (impl.MaxDistance dist p first last).2 = last ∨
        (impl.MaxDistance dist p first last).1 < epsilon
    · simp only [hc, if_true]
      refine ⟨[last], rfl, by simp, by simp, ?_⟩
      intro hlt
      simp only [List.chain'_cons, List.chain'_singleton, and_true]
      exact hlt
    · simp only [hc, if_false]
      obtain ⟨_, _, h3⟩ := maxDistance_spec dist p first last
      rcases h3 with h3 | h3
      · exact absurd (Or.inl h3.1) hc
      · obtain ⟨m1, m2, _⟩ := h3
        obtain ⟨l1, e1, n1, g1, s1⟩ := impl_simplifyDP_shape epsilon fuel first
          (impl.MaxDistance dist p first last).2 out (by omega) (by omega)
        obtain ⟨l2, e2, n2, g2, s2⟩ := impl_simplifyDP_shape epsilon fuel
          (impl.MaxDistance dist p first last).2 last (out ++ l1) (by omega) (by omega)
        refine ⟨l1 ++ l2, ?_, by simp [n2], getLast?_join g2 n2, ?_⟩
        · simp only [e1, e2, List.append_assoc]
        · intro _
          exact chain'_join (s1 m1) g1 (s2 m2)

end DouglasPeuckerShape

section FilterShape

variable {P D : Type} [LinearOrder D] [Inhabited P] (dist : P → P → P → D) (eps : D)

theorem popLoop_keeps_first (q : P) : ∀ (fuel : Nat) (v : List P), v.length ≤ fuel → v ≠ [] →
    ∃ m, 1 ≤ m ∧ AccumulateSkipSmallTrg.popLoop dist eps q fuel v = v.take m
  | 0, v, h, hne => by
    have : v = [] := List.eq_nil_of_length_eq_zero (by omega)
    exact absurd this hne
  | fuel + 1, v, h, hne => by
    have hpos : 1 ≤ v.length := by
      cases v with
      | nil => exact absurd rfl hne
      | cons a t => simp
    unfold AccumulateSkipSmallTrg.popLoop
    by_cases h2 : v.length ≥ 2
    · simp only [h2, if_true]
      by_cases hd : dist (v.getD (v.length - 2) default) q (v.getD (v.length - 1) default) < eps
      · simp only [hd, if_true]
        have hne2 : v.dropLast ≠ [] := by
          intro e
          have := congrArg List.length e
          simp at this
          omega
        obtain ⟨m, hm, e⟩ := popLoop_keeps_first q fuel v.dropLast (by simp; omega) hne2
        refine ⟨min m (v.length - 1), by omega, ?_⟩
        rw [e, List.dropLast_eq_take, List.take_take]
      · simp only [hd, if_false]
        exact ⟨v.length, hpos, (List.take_length v).symm⟩
    · simp only [h2, if_false]
      exact ⟨v.length, hpos, (List.take_length v).symm⟩

theorem feed_shape : ∀ (qs v : List P), v ≠ [] →
    (AccumulateSkipSmallTrg.feed dist eps v qs).Sublist (v ++ qs) ∧
    (AccumulateSkipSmallTrg.feed dist eps v qs).head? = v.head? ∧
    (qs ≠ [] → (AccumulateSkipSmallTrg.feed dist eps v qs).getLast? = qs.getLast?)
  | [], v, _ => by simp [AccumulateSkipSmallTrg.feed]
  | q :: qs, v, hne => by
    obtain ⟨m, hm, e⟩ := popLoop_keeps_first dist eps q v.length v (le_refl _) hne
    have hcall : AccumulateSkipSmallTrg.call dist eps v q = v.take m ++ [q] := by
      unfold AccumulateSkipSmallTrg.call; rw [e]
    have hfeed : AccumulateSkipSmallTrg.feed dist eps v (q :: qs) =
        AccumulateSkipSmallTrg.feed dist eps (v.take m ++ [q]) qs := by
      simp [AccumulateSkipSmallTrg.feed, hcall]
    obtain ⟨i1, i2, i3⟩ := feed_shape qs (v.take m ++ [q]) (by simp)
    rw [hfeed]
    refine ⟨?_, ?_, ?_⟩
    · have h1 : (v.take m ++ [q] ++ qs).Sublist (v ++ (q :: qs)) := by
        rw [List.append_assoc]
        exact (List.take_sublist m v).append_right _
      exact i1.trans h1
    · rw [i2, List.head?_append_of_ne_nil, head?_take_pos v hm]
      cases v with
      | nil => exact absurd rfl hne
      | cons a t =>
        cases m with
        | zero => omega
        | succ m => simp
    · intro _
      by_cases hq : qs = []
      · subst hq
        simp [AccumulateSkipSmallTrg.feed]
      · rw [i3 hq]
        cases qs with
        | nil => exact absurd rfl hq
        | cons b t => simp

end FilterShape

end Simplification

/-! # Claims -/

namespace GeoCoding

/-- C1: for `basePoint <= maxPoint` and lattice points that are well-formed for the
variant, each encoder run on an empty sink succeeds and the matching decoder, under
the same `basePoint` and `maxPoint`, maps its deltas back to exactly the input; the
identity holds for any prediction function `P`, since it only uses
`DecodeDelta (EncodeDelta a b) b = a`. -/
theorem codec_round_trip (fo : FloatOracle) (points : List PointU) (basePoint maxPoint : PointU)
    (hx : basePoint.x ≤ maxPoint.x) (hy : basePoint.y ≤ maxPoint.y)
    (hp : AllInLattice points) :
    (∃ ds, EncodePolylinePrev1 points basePoint maxPoint [] = .ok ds ∧
      DecodePolylinePrev1 ds basePoint maxPoint [] = .ok points) ∧
    (∃ ds, EncodePolylinePrev2 fo points basePoint maxPoint [] = .ok ds ∧
      DecodePolylinePrev2 fo ds basePoint maxPoint [] = .ok points) ∧
    (WellFormedPrev3 points →
      ∃ ds, EncodePolylinePrev3 fo points basePoint maxPoint [] = .ok ds ∧
        DecodePolylinePrev3 fo ds basePoint maxPoint [] = .ok points) ∧
    (points.length = 0 ∨ 3 ≤ points.length →
      ∃ ds, EncodeTriangleStrip points basePoint maxPoint [] = .ok ds ∧
        DecodeTriangleStrip ds basePoint maxPoint [] = .ok points) ∧
    (∀ P : List PointU → PointU, decodedUpTo P (encTable P points) points.length = points) := by
  have hd : ∀ P : List PointU → PointU,
      decodedUpTo P (encTable P points) points.length = points := by
    intro P
    rw [decodedUpTo_encTable P points hp _ (le_refl _), List.take_length]
  refine ⟨⟨_, encodePrev1_eq points basePoint maxPoint hp, ?_⟩,
    ⟨_, encodePrev2_eq fo points basePoint maxPoint hp, ?_⟩, fun hw =>
    ⟨_, encodePrev3_eq fo points basePoint maxPoint hx hy hp hw, ?_⟩, fun hl =>
    ⟨_, encodeStrip_eq points basePoint maxPoint [] hl, ?_⟩, hd⟩
  · rw [decodePrev1_eq, length_encTable, hd]
  · rw [decodePrev2_eq, length_encTable, hd]
  · rw [decodePrev3_eq fo _ basePoint maxPoint hx hy (by rw [length_encTable, hd]; exact hw),
      length_encTable, hd]
  · rw [List.nil_append, decodeStrip_eq _ basePoint maxPoint (by simpa using hl),
      length_encTable, hd]

/-- Witness for C1: the four pairs on four points of constant velocity. -/
theorem codec_round_trip_witness :
    AllInLattice samplePolyline ∧ WellFormedPrev3 samplePolyline ∧
    (∃ ds, EncodePolylinePrev1 samplePolyline ⟨0, 0⟩ ⟨1000, 1000⟩ [] = .ok ds ∧
      DecodePolylinePrev1 ds ⟨0, 0⟩ ⟨1000, 1000⟩ [] = .ok samplePolyline) ∧
    (∃ ds, EncodePolylinePrev2 sampleOracle samplePolyline ⟨0, 0⟩ ⟨1000, 1000⟩ [] = .ok ds ∧
      DecodePolylinePrev2 sampleOracle ds ⟨0, 0⟩ ⟨1000, 1000⟩ [] = .ok samplePolyline) ∧
    (∃ ds, EncodePolylinePrev3 sampleOracle samplePolyline ⟨0, 0⟩ ⟨1000, 1000⟩ [] = .ok ds ∧
      DecodePolylinePrev3 sampleOracle ds ⟨0, 0⟩ ⟨1000, 1000⟩ [] = .ok samplePolyline) ∧
    (∃ ds, EncodeTriangleStrip samplePolyline ⟨0, 0⟩ ⟨1000, 1000⟩ [] = .ok ds ∧
      DecodeTriangleStrip ds ⟨0, 0⟩ ⟨1000, 1000⟩ [] = .ok samplePolyline) :=
  have h := codec_round_trip sampleOracle samplePolyline ⟨0, 0⟩ ⟨1000, 1000⟩
    (by decide) (by decide) (by decide)
  ⟨by decide, by decide, h.1, h.2.1, h.2.2.1 (by decide), h.2.2.2.1 (by decide)⟩

/-- C2: on well-formed input each encoder, run on an empty sink, emits exactly
`|points|` deltas and entry `i` is the one the delta table of the specification
gives for the variant (`points[0] - basePoint`, `points[1] - points[0]`, then the
difference with the variant's prediction from the preceding points). -/
theorem encoders_match_delta_table (fo : FloatOracle) (points : List PointU)
    (basePoint maxPoint : PointU)
    (hx : basePoint.x ≤ maxPoint.x) (hy : basePoint.y ≤ maxPoint.y)
    (hp : AllInLattice points) :
    (∃ ds, EncodePolylinePrev1 points basePoint maxPoint [] = .ok ds ∧
      ds.length = points.length ∧
      ∀ i, i < points.length → ds.getD i default = DeltaTable.prev1 points basePoint i) ∧
    (∃ ds, EncodePolylinePrev2 fo points basePoint maxPoint [] = .ok ds ∧
      ds.length = points.length ∧
      ∀ i, i < points.length →
        ds.getD i default = DeltaTable.prev2 fo points basePoint maxPoint i) ∧
    (WellFormedPrev3 points →
      ∃ ds, EncodePolylinePrev3 fo points basePoint maxPoint [] = .ok ds ∧
        ds.length = points.length ∧
        ∀ i, i < points.length →
          DeltaTable.prev3 fo points basePoint maxPoint i = .ok (ds.getD i default)) ∧
    (points.length = 0 ∨ 3 ≤ points.length →
      ∃ ds, EncodeTriangleStrip points basePoint maxPoint [] = .ok ds ∧
        ds.length = points.length ∧
        ∀ i, i < points.length →
          ds.getD i default = DeltaTable.strip points basePoint maxPoint i) := by
  refine ⟨⟨_, encodePrev1_eq points basePoint maxPoint hp, length_encTable _ _, ?_⟩,
    ⟨_, encodePrev2_eq fo points basePoint maxPoint hp, length_encTable _ _, ?_⟩, fun hw =>
    ⟨_, encodePrev3_eq fo points basePoint maxPoint hx hy hp hw, length_encTable _ _, ?_⟩,
    fun hl => ⟨_, encodeStrip_eq points basePoint maxPoint [] hl, by simp, ?_⟩⟩
  · intro i hi
    rw [getD_encTable _ points default hi, predPrev1_take basePoint points (by omega)]
    unfold DeltaTable.prev1
    split_ifs with h <;> simp [h]
  · intro i hi
    rw [getD_encTable _ points default hi, predPrev2_take fo basePoint maxPoint points (by omega)]
    unfold DeltaTable.prev2
    split_ifs with h1 h2 <;> simp [*]
  · intro i hi
    rw [getD_encTable _ points default hi, predPrev3_take fo basePoint maxPoint points (by omega)]
    unfold DeltaTable.prev3
    split_ifs with h1 h2 h3
    · simp [h1]
    · simp [h2]
    · simp [h3]
    · simp only [PredictPointInPolyline3, if_neg (hw i hi (by omega))]
  · intro i hi
    rw [List.nil_append, getD_encTable _ points default hi,
      predStrip_take basePoint maxPoint points (by omega)]
    unfold DeltaTable.strip
    by_cases h0 : i = 0
    · simp [h0]
    · by_cases h1 : i = 1
      · simp [h1]
      · by_cases h2 : i = 2
        · simp [h2]
        · simp only [if_neg h0, if_neg h1, if_neg h2, if_neg (show ¬ i < 3 by omega)]

/-- Witness for C2: the diagonal line `(10,10), (20,20), (30,30)` with base `(0,0)`. -/
theorem encoders_match_delta_table_witness :
    AllInLattice diagonalLine ∧
    EncodePolylinePrev1 diagonalLine ⟨0, 0⟩ ⟨100, 100⟩ [] =
      .ok [⟨10, 10⟩, ⟨10, 10⟩, ⟨10, 10⟩] ∧
    (∃ ds, EncodePolylinePrev1 diagonalLine ⟨0, 0⟩ ⟨100, 100⟩ [] = .ok ds ∧
      ds.length = diagonalLine.length ∧
      ∀ i, i < diagonalLine.length →
        ds.getD i default = DeltaTable.prev1 diagonalLine ⟨0, 0⟩ i) ∧
    (∃ ds, EncodePolylinePrev3 sampleOracle diagonalLine ⟨0, 0⟩ ⟨100, 100⟩ [] = .ok ds ∧
      ds.length = diagonalLine.length ∧
      ∀ i, i < diagonalLine.length →
        DeltaTable.prev3 sampleOracle diagonalLine ⟨0, 0⟩ ⟨100, 100⟩ i =
          .ok (ds.getD i default)) :=
  have h := encoders_match_delta_table sampleOracle diagonalLine ⟨0, 0⟩ ⟨100, 100⟩
    (by decide) (by decide) (by decide)
  ⟨by decide, by decide, h.1, h.2.2.1 (by decide)⟩

end GeoCoding

namespace Simplification

/-- C3: on the eleven points `(0,0), (1,0), ..., (10,0)` with `epsilon = 0.5`, given as
the range `[first, last)`, `SimplifyDP` passes `(0,0)` and then the last input point
`(10,0)` to the sink: the last point (index `n - 1`) is not left to the caller. -/
theorem simplifyDP_straight_line_passes_last :
    (SimplifyDP segmentDistSq straightLine 0 11 (1 / 2)).map (List.map straightLine) =
      some [(0, 0), (10, 0)] := by
  decide!

/-- C4: for `n = last - first + 1 >= 2` points, `epsilon > 0` and look-ahead `>= 1`,
`SimplifyNearOptimal` returns; the iterators it passes to the sink start with `first`,
are strictly increasing and all lie before `last`, so the emitted points followed by
the last point form a subsequence of the input. For `n <= 2` exactly `first` is
emitted. -/
theorem nearOptimal_emits_increasing_before_last {P D : Type} [LinearOrder D] [Zero D]
    (dist : P → P → P → D) (p : Nat → P) (junk k : Int) (first last : Nat) (epsilon : D)
    (hk : 1 ≤ k) (heps : 0 < epsilon) (h1 : first ≤ last) (h32 : last - first + 1 < 2 ^ 31) :
    (last ≤ first + 1 → SimplifyNearOptimal dist p junk k first last epsilon = some [first]) ∧
    (first < last →
      ∃ idx, SimplifyNearOptimal dist p junk k first last epsilon = some idx ∧
        idx.head? = some first ∧ List.Chain' (· < ·) idx ∧ (∀ x, x ∈ idx → x < last) ∧
        ((idx ++ [last]).map p).Sublist ((List.range' first (last - first + 1)).map p)) := by
  refine ⟨nearOptimal_small dist p k first epsilon junk last h1, ?_⟩
  intro h2
  obtain ⟨idx, e, hx, ⟨v1, v2, v3, _⟩, _⟩ :=
    nearOptimal_summary dist p k first epsilon junk last hk heps h2 h32
  refine ⟨idx, e, ?_, (List.chain'_append.mp v3).1, hx,
    (increasing_sublist_range _ first last v3 v1 v2).map p⟩
  cases idx with
  | nil =>
    simp at v1
    omega
  | cons a t => simpa using v1

/-- Witness for C4: eight points, look-ahead `2`. -/
theorem nearOptimal_emits_increasing_before_last_witness :
    SimplifyNearOptimal segmentDistSq zigzag 0 2 0 7 4 = some [0, 6] ∧
    ∃ idx, SimplifyNearOptimal segmentDistSq zigzag 0 2 0 7 4 = some idx ∧
      idx.head? = some 0 ∧ List.Chain' (· < ·) idx ∧ (∀ x, x ∈ idx → x < 7) ∧
      ((idx ++ [7]).map zigzag).Sublist ((List.range' 0 (7 - 0 + 1)).map zigzag) :=
  ⟨by decide!, (nearOptimal_emits_increasing_before_last segmentDistSq zigzag 0 2 0 7 4
    (by decide) (by norm_num) (by decide) (by norm_num)).2 (by decide)⟩

/-- C5: for a non-empty range and `epsilon > 0`, `SimplifyDP` returns, and for any two
iterators `i`, `j` passed consecutively to the sink every input point strictly
between them is closer than `epsilon` to the segment from `p i` to `p j`. -/
theorem simplifyDP_hops_within_epsilon {P D : Type} [LinearOrder D] [Zero D]
    (dist : P → P → P → D) (p : Nat → P) (first last : Nat) (epsilon : D)
    (hne : first < last) (heps : 0 < epsilon) :
    ∃ idx, SimplifyDP dist p first last epsilon = some idx ∧
      List.Chain' (fun i j => ∀ m, i < m → m < j → dist (p i) (p j) (p m) < epsilon) idx := by
  obtain ⟨idx, e, _, _, _, c, _⟩ := simplifyDP_spec dist p heps first last hne
  exact ⟨idx, e, c⟩

/-- Witness for C5: the spike with `epsilon = 0.5` (squared: `1/4`) keeps all points. -/
theorem simplifyDP_hops_within_epsilon_witness :
    SimplifyDP segmentDistSq spike 0 5 (1 / 4) = some [0, 1, 2, 3, 4] ∧
    ∃ idx, SimplifyDP segmentDistSq spike 0 5 (1 / 4) = some idx ∧
      List.Chain' (fun i j => ∀ m, i < m → m < j →
        segmentDistSq (spike i) (spike j) (spike m) < 1 / 4) idx :=
  ⟨by decide!, simplifyDP_hops_within_epsilon segmentDistSq spike 0 5 (1 / 4) (by decide)
    (by norm_num)⟩

/-- C6: for `n >= 2` points, `epsilon > 0` and look-ahead `>= 1`, for any two
consecutive entries `i < j` of the emitted iterators followed by `last`, every input
point strictly between them is closer than `epsilon` to the segment from `p i` to
`p j`. -/
theorem nearOptimal_hops_within_epsilon {P D : Type} [LinearOrder D] [Zero D]
    (dist : P → P → P → D) (p : Nat → P) (junk k : Int) (first last : Nat) (epsilon : D)
    (hk : 1 ≤ k) (heps : 0 < epsilon) (h2 : first < last) (h32 : last - first + 1 < 2 ^ 31) :
    ∃ idx, SimplifyNearOptimal dist p junk k first last epsilon = some idx ∧
      List.Chain' (fun i j => i < j ∧ ∀ m, i < m → m < j → dist (p i) (p j) (p m) < epsilon)
        (idx ++ [last]) := by
  obtain ⟨idx, e, _, ⟨_, _, v3, v4⟩, _⟩ :=
    nearOptimal_summary dist p k first epsilon junk last hk heps h2 h32
  refine ⟨idx, e, ?_⟩
  rw [List.chain'_iff_get] at v3 v4 ⊢
  intro i hi
  exact ⟨v3 i hi, v4 i hi⟩

/-- Witness for C6: eight points, look-ahead `3`. -/
theorem nearOptimal_hops_within_epsilon_witness :
    ∃ idx, SimplifyNearOptimal segmentDistSq zigzag 0 3 0 7 4 = some idx ∧
      List.Chain' (fun i j => i < j ∧ ∀ m, i < m → m < j →
        segmentDistSq (zigzag i) (zigzag j) (zigzag m) < 4) (idx ++ [7]) :=
  nearOptimal_hops_within_epsilon segmentDistSq zigzag 0 3 0 7 4
    (by decide) (by norm_num) (by decide) (by norm_num)

/-- C7: with a look-ahead `k >= n` the emitted iterators followed by `last` form a
valid index chain from `first` to `last` (strictly increasing, every hop within
`epsilon`), and no valid chain has fewer entries: the emitted count plus one is the
minimum length of a valid chain. -/
theorem nearOptimal_minimal_of_unbounded_lookahead {P D : Type} [LinearOrder D] [Zero D]
    (dist : P → P → P → D) (p : Nat → P) (junk k : Int) (first last : Nat) (epsilon : D)
    (hk : ((last - first + 1 : Nat) : Int) ≤ k) (heps : 0 < epsilon) (h2 : first < last)
    (h32 : last - first + 1 < 2 ^ 31) :
    ∃ idx, SimplifyNearOptimal dist p junk k first last epsilon = some idx ∧
      ValidChain dist p epsilon first last (idx ++ [last]) ∧
      ∀ c, ValidChain dist p epsilon first last c → idx.length + 1 ≤ c.length := by
  obtain ⟨idx, e, _, v, hmin⟩ :=
    nearOptimal_summary dist p k first epsilon junk last (by omega) heps h2 h32
  exact ⟨idx, e, v, hmin hk⟩

/-- Witness for C7: eight points, look-ahead `8`. -/
theorem nearOptimal_minimal_of_unbounded_lookahead_witness :
    SimplifyNearOptimal segmentDistSq zigzag 0 8 0 7 4 = some [0, 6] ∧
    ∃ idx, SimplifyNearOptimal segmentDistSq zigzag 0 8 0 7 4 = some idx ∧
      ValidChain segmentDistSq zigzag 4 0 7 (idx ++ [7]) ∧
      ∀ c, ValidChain segmentDistSq zigzag 4 0 7 c → idx.length + 1 ≤ c.length :=
  ⟨by decide!, nearOptimal_minimal_of_unbounded_lookahead segmentDistSq zigzag 0 8 0 7 4
    (by decide) (by norm_num) (by decide) (by norm_num)⟩

/-- C8, as stated, fails: on the eight points of `zigzag` with `epsilon = 4` (squared
distance), look-ahead `2` emits two points and look-ahead `3` emits three. -/
theorem nearOptimal_lookahead_not_monotone :
    SimplifyNearOptimal segmentDistSq zigzag 0 2 0 7 4 = some [0, 6] ∧
    SimplifyNearOptimal segmentDistSq zigzag 0 3 0 7 4 = some [0, 1, 2] ∧
    ¬ ([0, 1, 2].length ≤ [0, 6].length) := by
  decide!

/-- C8, amended: a look-ahead `k2 >= n` never emits more points than any look-ahead
`k1 >= 1`. -/
theorem nearOptimal_unbounded_lookahead_emits_fewest {P D : Type} [LinearOrder D] [Zero D]
    (dist : P → P → P → D) (p : Nat → P) (junk1 junk2 k1 k2 : Int) (first last : Nat)
    (epsilon : D) (hk1 : 1 ≤ k1) (hk2 : ((last - first + 1 : Nat) : Int) ≤ k2)
    (heps : 0 < epsilon) (h2 : first < last) (h32 : last - first + 1 < 2 ^ 31) :
    ∃ idx1 idx2, SimplifyNearOptimal dist p junk1 k1 first last epsilon = some idx1 ∧
      SimplifyNearOptimal dist p junk2 k2 first last epsilon = some idx2 ∧
      idx2.length ≤ idx1.length := by
  obtain ⟨idx1, e1, _, v1, _⟩ :=
    nearOptimal_summary dist p k1 first epsilon junk1 last hk1 heps h2 h32
  obtain ⟨idx2, e2, _, _, hmin⟩ :=
    nearOptimal_summary dist p k2 first epsilon junk2 last (by omega) heps h2 h32
  refine ⟨idx1, idx2, e1, e2, ?_⟩
  have := hmin hk2 _ v1
  simp only [List.length_append, List.length_singleton] at this
  omega

/-- Witness for the amended C8: look-ahead `3` against look-ahead `8`. -/
theorem nearOptimal_unbounded_lookahead_emits_fewest_witness :
    ∃ idx1 idx2, SimplifyNearOptimal segmentDistSq zigzag 0 3 0 7 4 = some idx1 ∧
      SimplifyNearOptimal segmentDistSq zigzag 0 8 0 7 4 = some idx2 ∧
      idx2.length ≤ idx1.length :=
  nearOptimal_unbounded_lookahead_emits_fewest segmentDistSq zigzag 0 0 3 8 0 7 4
    (by decide) (by decide) (by norm_num) (by decide) (by norm_num)

/-- C9: starting from the empty vector, after feeding any points to
`AccumulateSkipSmallTrg` no three consecutive points `(a, b, c)` of the accumulated
vector have `DistanceF(a, c)(b) < eps`, and every call of `operator()` preserves this
property of the vector. -/
theorem accumulate_no_small_triangle {P D : Type} [LinearOrder D] [Inhabited P]
    (dist : P → P → P → D) (eps : D) (points : List P) :
    NoSmallTrg dist eps (AccumulateSkipSmallTrg.feed dist eps [] points) ∧
    ∀ (m_vec : List P) (q : P), NoSmallTrg dist eps m_vec →
      NoSmallTrg dist eps (AccumulateSkipSmallTrg.call dist eps m_vec q) :=
  ⟨noSmallTrg_feed dist eps points [] (fun i hi => by simp at hi),
    fun m_vec q h => noSmallTrg_call dist eps m_vec q h⟩

/-- Witness for C9: the middle point of three collinear points is dropped. -/
theorem accumulate_no_small_triangle_witness :
    AccumulateSkipSmallTrg.feed segmentDistSq (1 / 4) []
      [((0 : Int), (0 : Int)), (1, 0), (2, 0), (3, 1)] = [(0, 0), (2, 0), (3, 1)] ∧
    NoSmallTrg segmentDistSq (1 / 4) (AccumulateSkipSmallTrg.feed segmentDistSq (1 / 4) []
      [((0 : Int), (0 : Int)), (1, 0), (2, 0), (3, 1)]) :=
  ⟨by decide!, (accumulate_no_small_triangle segmentDistSq (1 / 4)
    [((0 : Int), (0 : Int)), (1, 0), (2, 0), (3, 1)]).1⟩

end Simplification

namespace GeoCoding

/-- C10: the codec is causal. For well-formed points the encoder of each variant maps
the first `m` points to the first `m` deltas it emits for the whole sequence, and
whenever a decoder returns on a delta sequence it maps the first `m` deltas to the
first `m` points it reconstructs from the whole sequence (`m = 0` or `m >= 3` for
the triangle strip). -/
theorem codec_causal (fo : FloatOracle) (points : List PointU) (deltas : List Delta)
    (basePoint maxPoint : PointU)
    (hx : basePoint.x ≤ maxPoint.x) (hy : basePoint.y ≤ maxPoint.y)
    (hp : AllInLattice points) :
    (∃ ds, EncodePolylinePrev1 points basePoint maxPoint [] = .ok ds ∧
      ∀ m, m ≤ points.length →
        EncodePolylinePrev1 (points.take m) basePoint maxPoint [] = .ok (ds.take m)) ∧
    (∃ ds, EncodePolylinePrev2 fo points basePoint maxPoint [] = .ok ds ∧
      ∀ m, m ≤ points.length →
        EncodePolylinePrev2 fo (points.take m) basePoint maxPoint [] = .ok (ds.take m)) ∧
    (WellFormedPrev3 points →
      ∃ ds, EncodePolylinePrev3 fo points basePoint maxPoint [] = .ok ds ∧
        ∀ m, m ≤ points.length →
          EncodePolylinePrev3 fo (points.take m) basePoint maxPoint [] = .ok (ds.take m)) ∧
    (points.length = 0 ∨ 3 ≤ points.length →
      ∃ ds, EncodeTriangleStrip points basePoint maxPoint [] = .ok ds ∧
        ∀ m, m ≤ points.length → m = 0 ∨ 3 ≤ m →
          EncodeTriangleStrip (points.take m) basePoint maxPoint [] = .ok (ds.take m)) ∧
    (∃ r, DecodePolylinePrev1 deltas basePoint maxPoint [] = .ok r ∧
      ∀ m, m ≤ deltas.length →
        DecodePolylinePrev1 (deltas.take m) basePoint maxPoint [] = .ok (r.take m)) ∧
    (∃ r, DecodePolylinePrev2 fo deltas basePoint maxPoint [] = .ok r ∧
      ∀ m, m ≤ deltas.length →
        DecodePolylinePrev2 fo (deltas.take m) basePoint maxPoint [] = .ok (r.take m)) ∧
    (∀ r, DecodePolylinePrev3 fo deltas basePoint maxPoint [] = .ok r →
      ∀ m, m ≤ deltas.length →
        DecodePolylinePrev3 fo (deltas.take m) basePoint maxPoint [] = .ok (r.take m)) ∧
    (deltas.length = 0 ∨ 3 ≤ deltas.length →
      ∃ r, DecodeTriangleStrip deltas basePoint maxPoint [] = .ok r ∧
        ∀ m, m ≤ deltas.length → m = 0 ∨ 3 ≤ m →
          DecodeTriangleStrip (deltas.take m) basePoint maxPoint [] = .ok (r.take m)) := by
  refine ⟨⟨_, encodePrev1_eq points basePoint maxPoint hp, ?_⟩,
    ⟨_, encodePrev2_eq fo points basePoint maxPoint hp, ?_⟩, fun hw =>
    ⟨_, encodePrev3_eq fo points basePoint maxPoint hx hy hp hw, ?_⟩, fun hl =>
    ⟨_, encodeStrip_eq points basePoint maxPoint [] hl, ?_⟩,
    ⟨_, decodePrev1_eq deltas basePoint maxPoint, ?_⟩,
    ⟨_, decodePrev2_eq fo deltas basePoint maxPoint, ?_⟩, ?_, fun hl =>
    ⟨_, decodeStrip_eq deltas basePoint maxPoint hl, ?_⟩⟩
  · intro m hm
    rw [encodePrev1_eq _ basePoint maxPoint (allInLattice_take points hp m),
      encTable_take _ points m hm]
  · intro m hm
    rw [encodePrev2_eq fo _ basePoint maxPoint (allInLattice_take points hp m),
      encTable_take _ points m hm]
  · intro m hm
    rw [encodePrev3_eq fo _ basePoint maxPoint hx hy (allInLattice_take points hp m)
      (wellFormedPrev3_take points hw m), encTable_take _ points m hm]
  · intro m hm h3
    rw [encodeStrip_eq _ basePoint maxPoint [] (by simp; omega), List.nil_append,
      List.nil_append, encTable_take _ points m hm]
  · intro m hm
    rw [decodePrev1_eq, decodedUpTo_take_deltas _ deltas hm]
  · intro m hm
    rw [decodePrev2_eq, decodedUpTo_take_deltas _ deltas hm]
  · intro r hr m hm
    obtain ⟨h1, h2⟩ := decodePrev3_ok fo deltas basePoint maxPoint hx hy r hr
    have e := decodedUpTo_take_deltas (predPrev3 fo basePoint maxPoint) deltas hm
    rw [← h1] at e
    rw [decodePrev3_eq fo _ basePoint maxPoint hx hy
      (by rw [e]; exact wellFormedPrev3_take r h2 m), e]
  · intro m hm h3
    rw [decodeStrip_eq _ basePoint maxPoint (by simp; omega), decodedUpTo_take_deltas _ deltas hm]

/-- Witness for C10: `Prev2` encoder and `Prev3` decoder on four points. -/
theorem codec_causal_witness :
    AllInLattice samplePolyline ∧
    (∃ ds, EncodePolylinePrev2 sampleOracle samplePolyline ⟨0, 0⟩ ⟨1000, 1000⟩ [] = .ok ds ∧
      ∀ m, m ≤ samplePolyline.length →
        EncodePolylinePrev2 sampleOracle (samplePolyline.take m) ⟨0, 0⟩ ⟨1000, 1000⟩ [] =
          .ok (ds.take m)) ∧
    DecodePolylinePrev3 sampleOracle [⟨0, 0⟩, ⟨10, 0⟩, ⟨5, 0⟩, ⟨5, 0⟩] ⟨0, 0⟩ ⟨1000, 1000⟩ [] =
      .ok samplePolyline ∧
    (∀ m, m ≤ 4 →
      DecodePolylinePrev3 sampleOracle (List.take m [⟨0, 0⟩, ⟨10, 0⟩, ⟨5, 0⟩, ⟨5, 0⟩])
        ⟨0, 0⟩ ⟨1000, 1000⟩ [] = .ok (samplePolyline.take m)) :=
  have h := codec_causal sampleOracle samplePolyline [⟨0, 0⟩, ⟨10, 0⟩, ⟨5, 0⟩, ⟨5, 0⟩]
    ⟨0, 0⟩ ⟨1000, 1000⟩ (by decide) (by decide) (by decide)
  ⟨by decide, h.2.1, by decide, h.2.2.2.2.2.2.1 samplePolyline (by decide)⟩

end GeoCoding

namespace GeoCoding

/-- C11: every point returned by a predictor lies in `[0, maxPoint]`: the two-point
and the triangle predictor always, the three-point predictor whenever it returns,
which it does for `p2 != p3`. -/
theorem predictions_clamped (fo : FloatOracle) (maxPoint p1 p2 p3 : PointU) :
    (0 ≤ (PredictPointInPolyline fo maxPoint p1 p2).x ∧
      (PredictPointInPolyline fo maxPoint p1 p2).x ≤ maxPoint.x ∧
      0 ≤ (PredictPointInPolyline fo maxPoint p1 p2).y ∧
      (PredictPointInPolyline fo maxPoint p1 p2).y ≤ maxPoint.y) ∧
    (p2 ≠ p3 → ∃ q, PredictPointInPolyline3 fo maxPoint p1 p2 p3 = .ok q ∧
      0 ≤ q.x ∧ q.x ≤ maxPoint.x ∧ 0 ≤ q.y ∧ q.y ≤ maxPoint.y) ∧
    (∀ q, PredictPointInPolyline3 fo maxPoint p1 p2 p3 = .ok q →
      q.x ≤ maxPoint.x ∧ q.y ≤ maxPoint.y) ∧
    (0 ≤ (PredictPointInTriangle maxPoint p1 p2 p3).x ∧
      (PredictPointInTriangle maxPoint p1 p2 p3).x ≤ maxPoint.x ∧
      0 ≤ (PredictPointInTriangle maxPoint p1 p2 p3).y ∧
      (PredictPointInTriangle maxPoint p1 p2 p3).y ≤ maxPoint.y) := by
  refine ⟨⟨Nat.zero_le _, (clampPoint_le _ _).1, Nat.zero_le _, (clampPoint_le _ _).2⟩, ?_, ?_,
    ⟨Nat.zero_le _, (clampPoint_le _ _).1, Nat.zero_le _, (clampPoint_le _ _).2⟩⟩
  · intro hne
    refine ⟨ClampPoint maxPoint (fo.circular p1 p2 p3), ?_, Nat.zero_le _, (clampPoint_le _ _).1,
      Nat.zero_le _, (clampPoint_le _ _).2⟩
    simp only [PredictPointInPolyline3, if_neg hne]
  · intro q hq
    unfold PredictPointInPolyline3 at hq
    split_ifs at hq
    simp only [Except.ok.injEq] at hq
    subst hq
    exact clampPoint_le _ _

/-- Witness for C11: the three-point predictor on three distinct collinear points. -/
theorem predictions_clamped_witness :
    ∃ q, PredictPointInPolyline3 sampleOracle ⟨10, 10⟩ ⟨30, 0⟩ ⟨20, 0⟩ ⟨10, 0⟩ = .ok q ∧
      0 ≤ q.x ∧ q.x ≤ 10 ∧ 0 ≤ q.y ∧ q.y ≤ 10 :=
  (predictions_clamped sampleOracle ⟨10, 10⟩ ⟨30, 0⟩ ⟨20, 0⟩ ⟨10, 0⟩).2.1 (by decide)

/-- C12: with `maxPoint = (10,10)`, `p1 = (0,1)`, `p2 = (1,0)`, `p3 = (0,0)` the
triangle predictor returns `(1,10)`: the `y` component `0 + 0 - 1` wraps around in
`uint32_t` and is clamped to `maxPoint.y`, where the signed value `-1` clamped to
`[0, 10]` is `0`. -/
theorem predictPointInTriangle_wraps :
    PredictPointInTriangle ⟨10, 10⟩ ⟨0, 1⟩ ⟨1, 0⟩ ⟨0, 0⟩ = ⟨1, 10⟩ ∧
    (⟨1, 10⟩ : PointU) ≠ ⟨1, 0⟩ := by
  decide

/-- C13: `EncodeTriangleStrip` fails, with the length violation, exactly when the
point sequence has length 1 or 2, and `DecodeTriangleStrip` exactly when the delta
sequence has length 1 or 2; on length 0 both succeed and leave the sink as it is; on
every length `>= 3` both succeed. -/
theorem strip_length_contract (points pts0 : List PointU) (deltas ds0 : List Delta)
    (basePoint maxPoint : PointU) :
    ((∃ e, EncodeTriangleStrip points basePoint maxPoint ds0 = .error e) ↔
      points.length = 1 ∨ points.length = 2) ∧
    (points.length = 1 ∨ points.length = 2 →
      EncodeTriangleStrip points basePoint maxPoint ds0 = .error .stripLength) ∧
    (points.length = 0 → EncodeTriangleStrip points basePoint maxPoint ds0 = .ok ds0) ∧
    (3 ≤ points.length → ∃ r, EncodeTriangleStrip points basePoint maxPoint ds0 = .ok r) ∧
    ((∃ e, DecodeTriangleStrip deltas basePoint maxPoint pts0 = .error e) ↔
      deltas.length = 1 ∨ deltas.length = 2) ∧
    (deltas.length = 1 ∨ deltas.length = 2 →
      DecodeTriangleStrip deltas basePoint maxPoint pts0 = .error .stripLength) ∧
    (deltas.length = 0 → DecodeTriangleStrip deltas basePoint maxPoint pts0 = .ok pts0) ∧
    (3 ≤ deltas.length → ∃ r, DecodeTriangleStrip deltas basePoint maxPoint pts0 = .ok r) := by
  refine ⟨⟨?_, fun h => ⟨_, encodeStrip_error points basePoint maxPoint ds0 h⟩⟩,
    encodeStrip_error points basePoint maxPoint ds0, ?_, ?_,
    ⟨?_, fun h => ⟨_, decodeStrip_error deltas basePoint maxPoint pts0 h⟩⟩,
    decodeStrip_error deltas basePoint maxPoint pts0, ?_, ?_⟩
  · rintro ⟨e, he⟩
    by_contra hc
    rw [encodeStrip_eq points basePoint maxPoint ds0 (by omega)] at he
    cases he
  · intro h
    rw [encodeStrip_eq points basePoint maxPoint ds0 (Or.inl h),
      List.eq_nil_of_length_eq_zero h]
    simp [encTable]
  · intro h
    exact ⟨_, encodeStrip_eq points basePoint maxPoint ds0 (Or.inr h)⟩
  · rintro ⟨e, he⟩
    by_contra hc
    obtain ⟨r, hr, _⟩ := decodeStrip_total deltas basePoint maxPoint pts0 (by omega)
    rw [hr] at he
    cases he
  · intro h
    obtain ⟨r, hr, h0⟩ := decodeStrip_total deltas basePoint maxPoint pts0 (Or.inl h)
    rw [hr, h0 h]
  · intro h
    obtain ⟨r, hr, _⟩ := decodeStrip_total deltas basePoint maxPoint pts0 (Or.inr h)
    exact ⟨r, hr⟩

/-- Witness for C13: two points and two deltas are rejected, three are accepted. -/
theorem strip_length_contract_witness :
    EncodeTriangleStrip [⟨0, 0⟩, ⟨1, 0⟩] ⟨0, 0⟩ ⟨10, 10⟩ [] = .error .stripLength ∧
    DecodeTriangleStrip [⟨0, 0⟩, ⟨1, 0⟩] ⟨0, 0⟩ ⟨10, 10⟩ [] = .error .stripLength ∧
    (∃ r, EncodeTriangleStrip [⟨0, 0⟩, ⟨1, 0⟩, ⟨0, 1⟩] ⟨0, 0⟩ ⟨10, 10⟩ [] = .ok r) :=
  have h := strip_length_contract [⟨0, 0⟩, ⟨1, 0⟩] [] [⟨0, 0⟩, ⟨1, 0⟩] [] ⟨0, 0⟩ ⟨10, 10⟩
  ⟨h.2.1 (by decide), h.2.2.2.2.2.1 (by decide),
    (strip_length_contract [⟨0, 0⟩, ⟨1, 0⟩, ⟨0, 1⟩] [] [] [] ⟨0, 0⟩ ⟨10, 10⟩).2.2.2.1
      (by decide)⟩

/-- C14: for `basePoint <= maxPoint` and lattice points, `EncodePolylinePrev3` on an
empty sink fails if and only if some index `3 <= i < |points|` has
`points[i-2] = points[i-3]`, and then with the violation of the three-point
predictor; sequences of at most three points and sequences whose first `|points| - 2`
points have no two equal neighbours are encoded. -/
theorem prev3_fails_iff_degenerate (fo : FloatOracle) (points : List PointU)
    (basePoint maxPoint : PointU)
    (hx : basePoint.x ≤ maxPoint.x) (hy : basePoint.y ≤ maxPoint.y)
    (hp : AllInLattice points) :
    ((∃ e, EncodePolylinePrev3 fo points basePoint maxPoint [] = .error e) ↔
      ∃ i, 3 ≤ i ∧ i < points.length ∧
        points.getD (i - 2) default = points.getD (i - 3) default) ∧
    ((∃ i, 3 ≤ i ∧ i < points.length ∧
        points.getD (i - 2) default = points.getD (i - 3) default) →
      EncodePolylinePrev3 fo points basePoint maxPoint [] = .error .degenerateTriple) ∧
    (points.length ≤ 3 → ∃ ds, EncodePolylinePrev3 fo points basePoint maxPoint [] = .ok ds) ∧
    ((∀ j, j + 1 < points.length - 2 →
        points.getD j default ≠ points.getD (j + 1) default) →
      ∃ ds, EncodePolylinePrev3 fo points basePoint maxPoint [] = .ok ds) := by
  have hfail : (∃ i, 3 ≤ i ∧ i < points.length ∧
      points.getD (i - 2) default = points.getD (i - 3) default) →
      EncodePolylinePrev3 fo points basePoint maxPoint [] = .error .degenerateTriple :=
    fun h => encodePrev3_error_of_not_wf fo points basePoint maxPoint [] hx hy
      ((not_wellFormedPrev3_iff points).mpr h)
  refine ⟨⟨?_, fun h => ⟨_, hfail h⟩⟩, hfail, ?_, ?_⟩
  · rintro ⟨e, he⟩
    rw [← not_wellFormedPrev3_iff]
    intro hw
    rw [encodePrev3_eq fo points basePoint maxPoint hx hy hp hw] at he
    cases he
  · intro h
    exact ⟨_, encodePrev3_eq fo points basePoint maxPoint hx hy hp
      (wellFormedPrev3_of_length_le points h)⟩
  · intro h
    refine ⟨_, encodePrev3_eq fo points basePoint maxPoint hx hy hp ?_⟩
    intro i h1 h2
    have := h (i - 3) (by omega)
    have e : i - 3 + 1 = i - 2 := by omega
    rw [e] at this
    exact fun heq => this heq.symm

/-- Witness for C14: four distinct collinear points are encoded, a repeated first
point is rejected. -/
theorem prev3_fails_iff_degenerate_witness :
    (∃ ds, EncodePolylinePrev3 sampleOracle samplePolyline ⟨0, 0⟩ ⟨1000, 1000⟩ [] = .ok ds) ∧
    EncodePolylinePrev3 sampleOracle [⟨0, 0⟩, ⟨0, 0⟩, ⟨20, 0⟩, ⟨30, 0⟩] ⟨0, 0⟩ ⟨1000, 1000⟩ [] =
      .error .degenerateTriple :=
  ⟨(prev3_fails_iff_degenerate sampleOracle samplePolyline ⟨0, 0⟩ ⟨1000, 1000⟩
      (by decide) (by decide) (by decide)).2.2.2
      (fun j hj => by
        have h0 : j = 0 := by simp [samplePolyline] at hj; omega
        subst h0
        decide),
    (prev3_fails_iff_degenerate sampleOracle [⟨0, 0⟩, ⟨0, 0⟩, ⟨20, 0⟩, ⟨30, 0⟩] ⟨0, 0⟩
      ⟨1000, 1000⟩ (by decide) (by decide) (by decide)).2.1 ⟨3, by decide⟩⟩

/-- C15, as stated, fails: with `basePoint = (5,5)` above `maxPoint = (0,0)` the `Prev1`
encoder and decoder accept the call. -/
theorem prev1_accepts_base_above_max :
    EncodePolylinePrev1 [⟨5, 5⟩] ⟨5, 5⟩ ⟨0, 0⟩ [] = .ok [⟨0, 0⟩] ∧
    DecodePolylinePrev1 [⟨0, 0⟩] ⟨5, 5⟩ ⟨0, 0⟩ [] = .ok [⟨5, 5⟩] := by
  decide

/-- C15, amended: the `Prev3` encoder and decoder reject every call with
`basePoint.x > maxPoint.x` or `basePoint.y > maxPoint.y`; the `Prev1` encoder and
decoder do not depend on `maxPoint` and return for every `basePoint`. -/
theorem base_max_check_of_prev3 (fo : FloatOracle) (points pts0 : List PointU)
    (deltas ds0 : List Delta) (basePoint maxPoint maxPoint2 : PointU) :
    (basePoint.x > maxPoint.x ∨ basePoint.y > maxPoint.y →
      EncodePolylinePrev3 fo points basePoint maxPoint ds0 = .error .baseExceedsMax ∧
      DecodePolylinePrev3 fo deltas basePoint maxPoint pts0 = .error .baseExceedsMax) ∧
    EncodePolylinePrev1 points basePoint maxPoint ds0 =
      EncodePolylinePrev1 points basePoint maxPoint2 ds0 ∧
    DecodePolylinePrev1 deltas basePoint maxPoint pts0 =
      DecodePolylinePrev1 deltas basePoint maxPoint2 pts0 ∧
    (AllInLattice points → ∃ r, EncodePolylinePrev1 points basePoint maxPoint [] = .ok r) ∧
    (∃ r, DecodePolylinePrev1 deltas basePoint maxPoint [] = .ok r) := by
  refine ⟨?_, rfl, rfl, fun hp => ⟨_, encodePrev1_eq points basePoint maxPoint hp⟩,
    ⟨_, decodePrev1_eq deltas basePoint maxPoint⟩⟩
  intro h
  unfold EncodePolylinePrev3 DecodePolylinePrev3
  rcases h with h | h
  · have hx : ¬ basePoint.x ≤ maxPoint.x := by omega
    simp only [hx, not_false_eq_true, if_true, and_self]
  · have hy : ¬ basePoint.y ≤ maxPoint.y := by omega
    by_cases hx : basePoint.x ≤ maxPoint.x
    · simp only [hx, hy, not_true_eq_false, not_false_eq_true, if_true, if_false, and_self]
    · simp only [hx, not_false_eq_true, if_true, and_self]

/-- Witness for the amended C15: `basePoint = (5,5)`, `maxPoint = (0,0)`. -/
theorem base_max_check_of_prev3_witness :
    EncodePolylinePrev3 sampleOracle [⟨5, 5⟩] ⟨5, 5⟩ ⟨0, 0⟩ [] = .error .baseExceedsMax ∧
    DecodePolylinePrev3 sampleOracle [⟨0, 0⟩] ⟨5, 5⟩ ⟨0, 0⟩ [] = .error .baseExceedsMax :=
  (base_max_check_of_prev3 sampleOracle [⟨5, 5⟩] [] [⟨0, 0⟩] [] ⟨5, 5⟩ ⟨0, 0⟩ ⟨0, 0⟩).1
    (Or.inl (by decide))

/-- C16, as stated, fails: on `(0,0), (10,0), (20,0), (30,0)` the `Prev2` encoder emits
`(5,0)` as third delta, not `(10,0)`, and the decoder maps the deltas of the claim to
other points. -/
theorem prev2_constant_velocity_third_delta :
    EncodePolylinePrev2 sampleOracle samplePolyline ⟨0, 0⟩ ⟨1000, 1000⟩ [] =
      .ok [⟨0, 0⟩, ⟨10, 0⟩, ⟨5, 0⟩, ⟨5, 0⟩] ∧
    ([⟨0, 0⟩, ⟨10, 0⟩, ⟨5, 0⟩, ⟨5, 0⟩] : List Delta) ≠ [⟨0, 0⟩, ⟨10, 0⟩, ⟨10, 0⟩, ⟨5, 0⟩] ∧
    DecodePolylinePrev2 sampleOracle [⟨0, 0⟩, ⟨10, 0⟩, ⟨10, 0⟩, ⟨5, 0⟩] ⟨0, 0⟩ ⟨1000, 1000⟩ [] =
      .ok [⟨0, 0⟩, ⟨10, 0⟩, ⟨25, 0⟩, ⟨37, 0⟩] := by
  decide

/-- C16, amended: with the two-point predictor `p1 + (p1 - p2) / 2`, truncated and
clamped, the `Prev2` encoder maps `(0,0), (10,0), (20,0), (30,0)` with base `(0,0)` and
max `(1000,1000)` to the deltas `(0,0), (10,0), (5,0), (5,0)`, and the decoder maps
these deltas back to the input. -/
theorem prev2_constant_velocity (fo : FloatOracle) (h : fo.LinearExact) :
    EncodePolylinePrev2 fo samplePolyline ⟨0, 0⟩ ⟨1000, 1000⟩ [] =
      .ok [⟨0, 0⟩, ⟨10, 0⟩, ⟨5, 0⟩, ⟨5, 0⟩] ∧
    DecodePolylinePrev2 fo [⟨0, 0⟩, ⟨10, 0⟩, ⟨5, 0⟩, ⟨5, 0⟩] ⟨0, 0⟩ ⟨1000, 1000⟩ [] =
      .ok samplePolyline := by
  obtain ⟨e1, e2⟩ := linearExact_step10 fo h
  have henc : encTable (predPrev2 fo ⟨0, 0⟩ ⟨1000, 1000⟩) samplePolyline =
      [⟨0, 0⟩, ⟨10, 0⟩, ⟨5, 0⟩, ⟨5, 0⟩] := by
    simp only [encTable, samplePolyline, List.length_cons, List.length_nil, List.range_succ,
      List.range_zero, List.nil_append, List.cons_append, List.map_cons, List.map_nil,
      List.take, predPrev2, back, List.getD_cons_zero, List.getD_cons_succ]
    simp [e1, e2, EncodeDelta]
  constructor
  · rw [encodePrev2_eq fo samplePolyline ⟨0, 0⟩ ⟨1000, 1000⟩ (by decide), henc]
  · rw [← henc, decodePrev2_eq, length_encTable,
      decodedUpTo_encTable _ samplePolyline (by decide) _ (le_refl _), List.take_length]

/-- Witness for the amended C16: the exact half-step oracle. -/
theorem prev2_constant_velocity_witness :
    sampleOracle.LinearExact ∧
    EncodePolylinePrev2 sampleOracle samplePolyline ⟨0, 0⟩ ⟨1000, 1000⟩ [] =
      .ok [⟨0, 0⟩, ⟨10, 0⟩, ⟨5, 0⟩, ⟨5, 0⟩] ∧
    DecodePolylinePrev2 sampleOracle [⟨0, 0⟩, ⟨10, 0⟩, ⟨5, 0⟩, ⟨5, 0⟩] ⟨0, 0⟩ ⟨1000, 1000⟩ [] =
      .ok samplePolyline :=
  ⟨sampleOracle_linearExact, prev2_constant_velocity sampleOracle sampleOracle_linearExact⟩

/-- C17: with one delta already in the sink, the self-check of each polyline encoder
fails on the well-formed one-point input `[(1,1)]`: `TestDecoding` decodes the whole
sink, two deltas, and compares two points with the one input point. On the empty sink
the same input passes. -/
theorem self_check_fails_on_nonempty_sink :
    EncodePolylinePrev1 [⟨1, 1⟩] ⟨0, 0⟩ ⟨9, 9⟩ [⟨7, 7⟩] = .error .roundTripMismatch ∧
    EncodePolylinePrev2 sampleOracle [⟨1, 1⟩] ⟨0, 0⟩ ⟨9, 9⟩ [⟨7, 7⟩] =
      .error .roundTripMismatch ∧
    EncodePolylinePrev3 sampleOracle [⟨1, 1⟩] ⟨0, 0⟩ ⟨9, 9⟩ [⟨7, 7⟩] =
      .error .roundTripMismatch ∧
    TestDecoding [⟨1, 1⟩] ⟨0, 0⟩ ⟨0, 0⟩ [⟨7, 7⟩, ⟨1, 1⟩] DecodePolylinePrev1 =
      .error .roundTripMismatch ∧
    EncodePolylinePrev1 [⟨1, 1⟩] ⟨0, 0⟩ ⟨9, 9⟩ [] = .ok [⟨1, 1⟩] := by
  decide

end GeoCoding

namespace Simplification

/-- C18: on a range of `n >= 2` points, for every `epsilon`, `SimplifyDP` returns; the
iterators it passes to the sink begin with `first`, end with `last - 1`, are strictly
increasing, so the points passed form a subsequence of the input and each endpoint is
passed exactly once. -/
theorem simplifyDP_keeps_both_endpoints {P D : Type} [LinearOrder D] [Zero D]
    (dist : P → P → P → D) (p : Nat → P) (first last : Nat) (epsilon : D)
    (h2 : first + 2 ≤ last) :
    ∃ idx, SimplifyDP dist p first last epsilon = some idx ∧ idx.head? = some first ∧
      idx.getLast? = some (last - 1) ∧ List.Chain' (· < ·) idx ∧
      (idx.map p).Sublist ((List.range' first (last - first)).map p) ∧
      idx.count first = 1 ∧ idx.count (last - 1) = 1 := by
  obtain ⟨l, e, _, g, s⟩ := impl_simplifyDP_shape dist p epsilon (last - first + 1) first
    (last - 1) [first] (by omega) (by omega)
  have hc := s (by omega)
  have hsub := increasing_sublist_range (first :: l) first (last - 1) hc rfl g
  have e1 : last - 1 - first + 1 = last - first := by omega
  rw [e1] at hsub
  have hnd : (first :: l).Nodup := (List.chain'_iff_pairwise.mp hc).nodup
  refine ⟨first :: l, ?_, rfl, g, hc, hsub.map p, ?_, ?_⟩
  · unfold SimplifyDP
    simp only [ne_eq, show ¬ first = last by omega, not_false_eq_true, if_true]
    simpa using e
  · exact List.count_eq_one_of_mem hnd (by simp)
  · exact List.count_eq_one_of_mem hnd (List.mem_of_getLast?_eq_some g)

/-- Witness for C18: the spike of five points. -/
theorem simplifyDP_keeps_both_endpoints_witness :
    ∃ idx, SimplifyDP segmentDistSq spike 0 5 (1 / 4) = some idx ∧ idx.head? = some 0 ∧
      idx.getLast? = some (5 - 1) ∧ List.Chain' (· < ·) idx ∧
      (idx.map spike).Sublist ((List.range' 0 (5 - 0)).map spike) ∧
      idx.count 0 = 1 ∧ idx.count (5 - 1) = 1 :=
  simplifyDP_keeps_both_endpoints segmentDistSq spike 0 5 (1 / 4) (by decide)

/-- C19: on a one-point range `SimplifyDP` passes the point to the sink twice, for
every `epsilon` and every metric; the output is not a subsequence of the input. -/
theorem simplifyDP_one_point_twice {P D : Type} [LinearOrder D] [Zero D]
    (dist : P → P → P → D) (p : Nat → P) (first : Nat) (epsilon : D) :
    SimplifyDP dist p first (first + 1) epsilon = some [first, first] ∧
    [first, first].map p = [p first, p first] ∧
    ([first, first].map p).length = ((List.range' first 1).map p).length + 1 ∧
    ¬ ([first, first].map p).Sublist ((List.range' first 1).map p) := by
  refine ⟨?_, rfl, by simp, ?_⟩
  · unfold SimplifyDP
    simp only [ne_eq, show ¬ first = first + 1 by omega, not_false_eq_true, if_true,
      Nat.add_sub_cancel]
    unfold impl.SimplifyDP
    rw [maxDistance_short dist p (by omega)]
    simp
  · intro h
    have := h.length_le
    simp at this

/-- Witness for C19: the one-point range `[3, 4)` of the straight line. -/
theorem simplifyDP_one_point_twice_witness :
    SimplifyDP segmentDistSq straightLine 3 (3 + 1) (1 / 2) = some [3, 3] ∧
    [3, 3].map straightLine = [((3 : Int), (0 : Int)), (3, 0)] :=
  ⟨(simplifyDP_one_point_twice segmentDistSq straightLine 3 (1 / 2)).1, by decide⟩

/-- C20: starting from the empty vector, after feeding `q0` and then `rest` to
`AccumulateSkipSmallTrg`, the accumulated vector is a subsequence of what was fed, its
first element is `q0` and its last element is the last point fed. -/
theorem accumulate_subsequence_keeps_ends {P D : Type} [LinearOrder D] [Inhabited P]
    (dist : P → P → P → D) (eps : D) (q0 : P) (rest : List P) :
    (AccumulateSkipSmallTrg.feed dist eps [] (q0 :: rest)).Sublist (q0 :: rest) ∧
    (AccumulateSkipSmallTrg.feed dist eps [] (q0 :: rest)).head? = some q0 ∧
    (AccumulateSkipSmallTrg.feed dist eps [] (q0 :: rest)).getLast? =
      (q0 :: rest).getLast? := by
  have hfeed : AccumulateSkipSmallTrg.feed dist eps [] (q0 :: rest) =
      AccumulateSkipSmallTrg.feed dist eps [q0] rest := by
    simp [AccumulateSkipSmallTrg.feed, AccumulateSkipSmallTrg.call,
      AccumulateSkipSmallTrg.popLoop]
  obtain ⟨i1, i2, i3⟩ := feed_shape dist eps rest [q0] (by simp)
  rw [hfeed]
  refine ⟨by simpa using i1, by simpa using i2, ?_⟩
  by_cases hr : rest = []
  · subst hr
    simp [AccumulateSkipSmallTrg.feed]
  · rw [i3 hr]
    cases rest with
    | nil => exact absurd rfl hr
    | cons b t => simp

/-- Witness for C20: four points, the second of which is dropped. -/
theorem accumulate_subsequence_keeps_ends_witness :
    AccumulateSkipSmallTrg.feed segmentDistSq (1 / 4) []
      [((0 : Int), (0 : Int)), (1, 0), (2, 0), (3, 1)] = [(0, 0), (2, 0), (3, 1)] ∧
    (AccumulateSkipSmallTrg.feed segmentDistSq (1 / 4) []
      [((0 : Int), (0 : Int)), (1, 0), (2, 0), (3, 1)]).head? = some (0, 0) :=
  ⟨by decide!, (accumulate_subsequence_keeps_ends segmentDistSq (1 / 4) ((0 : Int), (0 : Int))
    [(1, 0), (2, 0), (3, 1)]).2.1⟩

end Simplification
